import Mathlib

/-!
Verification development for the OMR sheet evaluation pipeline
(`omr_processor.py` and `main.py`).

The Python source is shallowly embedded: dictionaries holding mark records
become structures, floating-point quantities become exact rationals
(`np.pi` is modelled by the exact value of the IEEE-754 double `np.pi`),
Python's stable `list.sort` becomes `List.insertionSort`, and the external
OCR engine (`pytesseract`) becomes an oracle function that may fail
(`Option String`, `none` modelling a thrown exception).
-/

namespace Omr

attribute [local semireducible] Rat.mul Rat.inv Rat.add Rat.sub Rat.ofScientific

/-! ## Generic helpers shared by several components -/

/-- Decimal digit character, as produced by Python `str` on a digit. -/
def digitChar : ℕ → Char
  | 0 => '0' | 1 => '1' | 2 => '2' | 3 => '3' | 4 => '4'
  | 5 => '5' | 6 => '6' | 7 => '7' | 8 => '8' | 9 => '9'
  | _ => '*'

/-- Fuelled digit expansion; the fuel `n + 1` used by `natRepr` always
suffices since the number of decimal digits of `n` is at most `n + 1`. -/
def natReprAux : ℕ → ℕ → List Char
  | 0, _ => []
  | f + 1, n =>
    if n < 10 then [digitChar n]
    else natReprAux f (n / 10) ++ [digitChar (n % 10)]

/-- Model of Python `str` applied to a non-negative integer (as used by the
f-strings that build mark identity strings). -/
def natRepr (n : ℕ) : String := ⟨natReprAux (n + 1) n⟩

/-- Numeric value of a digit character. -/
def charVal (c : Char) : ℕ := c.toNat - 48

/-- Decimal value of a character list (used only to invert `natRepr`). -/
def valOfChars (l : List Char) : ℕ := l.foldl (fun acc c => acc * 10 + charVal c) 0

theorem valOfChars_append (l : List Char) (c : Char) :
    valOfChars (l ++ [c]) = 10 * valOfChars l + charVal c := by
  simp [valOfChars, List.foldl_append, Nat.mul_comm]

theorem digitChar_isDigit {n : ℕ} (h : n < 10) : (digitChar n).isDigit = true := by
  interval_cases n <;> decide

theorem charVal_digitChar {n : ℕ} (h : n < 10) : charVal (digitChar n) = n := by
  interval_cases n <;> decide

theorem lt_ten_pow (n : ℕ) : n < 10 ^ (n + 1) := by
  induction n with
  | zero => decide
  | succ k ih =>
    have h1 : 10 ^ (k + 1) < 10 ^ (k + 2) := by
      have := Nat.pow_lt_pow_right (a := 10) (by norm_num) (Nat.lt_succ_self (k + 1))
      exact this
    omega

theorem natReprAux_spec :
    ∀ (f n : ℕ), n < 10 ^ (f + 1) →
      valOfChars (natReprAux (f + 1) n) = n ∧
      (∀ c ∈ natReprAux (f + 1) n, c.isDigit = true) ∧
      natReprAux (f + 1) n ≠ [] := by
  intro f
  induction f with
  | zero =>
    intro n hn
    have h10 : n < 10 := by simpa using hn
    rw [natReprAux, if_pos h10]
    refine ⟨?_, ?_, by simp⟩
    · simp [valOfChars, charVal_digitChar h10]
    · intro c hc
      simp at hc
      subst hc
      exact digitChar_isDigit h10
  | succ k ih =>
    intro n hn
    by_cases h10 : n < 10
    · rw [natReprAux, if_pos h10]
      refine ⟨?_, ?_, by simp⟩
      · simp [valOfChars, charVal_digitChar h10]
      · intro c hc
        simp at hc
        subst hc
        exact digitChar_isDigit h10
    · rw [natReprAux, if_neg h10]
      have hdiv : n / 10 < 10 ^ (k + 1) := by
        rw [Nat.div_lt_iff_lt_mul (by norm_num)]
        calc n < 10 ^ (k + 1 + 1) := hn
        _ = 10 ^ (k + 1) * 10 := by ring
      obtain ⟨hval, hdig, hne⟩ := ih (n / 10) hdiv
      refine ⟨?_, ?_, by simp⟩
      · rw [valOfChars_append, hval, charVal_digitChar (Nat.mod_lt n (by norm_num))]
        omega
      · intro c hc
        rcases List.mem_append.mp hc with h | h
        · exact hdig c h
        · simp at h
          subst h
          exact digitChar_isDigit (Nat.mod_lt n (by norm_num))

theorem natRepr_val (n : ℕ) : valOfChars (natRepr n).data = n :=
  (natReprAux_spec n n (lt_ten_pow n)).1

theorem natRepr_digits (n : ℕ) : ∀ c ∈ (natRepr n).data, c.isDigit = true :=
  (natReprAux_spec n n (lt_ten_pow n)).2.1

theorem natRepr_ne_nil (n : ℕ) : (natRepr n).data ≠ [] :=
  (natReprAux_spec n n (lt_ten_pow n)).2.2

theorem natRepr_inj {m n : ℕ} (h : natRepr m = natRepr n) : m = n := by
  have := congrArg (fun s : String => valOfChars s.data) h
  simpa [natRepr_val] using this

theorem isDigit_ne {c d : Char} (hc : c.isDigit = true) (hd : d.isDigit = false) : c ≠ d := by
  intro he
  rw [he, hd] at hc
  exact Bool.noConfusion hc

theorem natRepr_no_underscore (n : ℕ) : '_' ∉ (natRepr n).data := by
  intro h
  exact isDigit_ne (natRepr_digits n _ h) (by decide) rfl

/-- Splitting two list concatenations at the first occurrence of a separator
character that appears in neither left part. -/
theorem append_sep_inj :
    ∀ (s1 : List Char) (s2 t1 t2 : List Char) (c : Char),
      c ∉ s1 → c ∉ s2 → s1 ++ c :: t1 = s2 ++ c :: t2 → s1 = s2 ∧ t1 = t2 := by
  intro s1
  induction s1 with
  | nil =>
    intro s2 t1 t2 c _ hc2 he
    cases s2 with
    | nil => simpa using he
    | cons b s2t =>
      simp at he
      exfalso
      exact hc2 (he.1 ▸ List.mem_cons_self b s2t)
  | cons a s1t ih =>
    intro s2 t1 t2 c hc1 hc2 he
    cases s2 with
    | nil =>
      simp at he
      exfalso
      exact hc1 (he.1 ▸ List.mem_cons_self a s1t)
    | cons b s2t =>
      simp at he
      obtain ⟨hab, ht⟩ := he
      have := ih s2t t1 t2 c (fun h => hc1 (List.mem_cons_of_mem a h))
        (fun h => hc2 (List.mem_cons_of_mem b h)) ht
      exact ⟨by simp [hab, this.1], this.2⟩

/-- Enumeration starting from `n`, modelling Python `enumerate`. -/
def enumFromN (n : ℕ) : List α → List (ℕ × α)
  | [] => []
  | a :: t => (n, a) :: enumFromN (n + 1) t

/-- Python `enumerate(l)`. -/
def pyEnum (l : List α) : List (ℕ × α) := enumFromN 0 l

theorem mem_enumFromN {n : ℕ} {l : List α} {p : ℕ × α} :
    p ∈ enumFromN n l ↔ ∃ j, l.get? j = some p.2 ∧ p.1 = n + j := by
  induction l generalizing n with
  | nil => simp [enumFromN]
  | cons a t ih =>
    simp only [enumFromN, List.mem_cons, ih]
    constructor
    · rintro (h | ⟨j, hj, hpj⟩)
      · exact ⟨0, by simp [h], by simp [h]⟩
      · exact ⟨j + 1, by simpa using hj, by omega⟩
    · rintro ⟨j, hj, hpj⟩
      cases j with
      | zero =>
        left
        simp at hj
        obtain ⟨p1, p2⟩ := p
        simp_all
      | succ k =>
        right
        exact ⟨k, by simpa using hj, by omega⟩

theorem mem_pyEnum {l : List α} {p : ℕ × α} :
    p ∈ pyEnum l ↔ l.get? p.1 = some p.2 := by
  rw [pyEnum, mem_enumFromN]
  constructor
  · rintro ⟨j, hj, hpj⟩
    simpa [hpj] using hj
  · intro h
    exact ⟨p.1, h, by omega⟩

theorem pyEnum_fst_eq {l : List α} {p q : ℕ × α} (hp : p ∈ pyEnum l) (hq : q ∈ pyEnum l)
    (h : p.1 = q.1) : p = q := by
  rw [mem_pyEnum] at hp hq
  rw [h] at hp
  rw [hp] at hq
  obtain ⟨p1, p2⟩ := p
  obtain ⟨q1, q2⟩ := q
  simp_all

theorem pyEnum_pairwise_ne (l : List α) :
    List.Pairwise (fun p q : ℕ × α => p.1 ≠ q.1) (pyEnum l) := by
  have : ∀ n, List.Pairwise (fun p q : ℕ × α => p.1 < q.1) (enumFromN n l) := by
    induction l with
    | nil => intro n; simp [enumFromN]
    | cons a t ih =>
      intro n
      refine List.Pairwise.cons ?_ (ih (n + 1))
      intro q hq
      rw [mem_enumFromN] at hq
      obtain ⟨j, _, hj⟩ := hq
      simp only
      omega
  exact (this 0).imp (fun h => Nat.ne_of_lt h)

/-- Gap-based clustering of a (sorted) list: start a new group whenever the
key of the next element exceeds the key of the previous element by more than
`thr` (models the column/row clustering loops in `map_bubbles_to_structure`). -/
def splitGapAux (thr : ℤ) (key : α → ℤ) (prev : α) (curr : List α) : List α → List (List α)
  | [] => [curr]
  | b :: rest =>
    if thr < key b - key prev then curr :: splitGapAux thr key b [b] rest
    else splitGapAux thr key b (curr ++ [b]) rest

/-- Cluster a list into consecutive-gap groups. -/
def splitByGap (thr : ℤ) (key : α → ℤ) : List α → List (List α)
  | [] => []
  | h :: t => splitGapAux thr key h [h] t

/-! ## Mark Detector and Duplicate Suppressor (`scan_for_bubbles`) -/

/-- Exact rational value of the IEEE-754 double `np.pi` used by the code. -/
def np_pi : ℚ := 884279719003555 / 281474976710656

/-- A closed contour as returned by `cv2.findContours`, together with the
quantities the code extracts from it: `cv2.contourArea`, `cv2.arcLength`,
and the moments-derived centroid (`cX`, `cY` are meaningful when `m00 ≠ 0`;
`cv2` is external, so these measurements are taken as inputs). -/
structure Contour where
  area : ℚ
  perimeter : ℚ
  m00 : ℚ
  cX : ℤ
  cY : ℤ
deriving DecidableEq

/-- A Mark Candidate emitted by the detector
(`{'x', 'y', 'r', 'area', 'circ'}` in the code). -/
structure Candidate where
  x : ℤ
  y : ℤ
  r : ℕ
  area : ℚ
  circ : ℚ
deriving DecidableEq

/-- Contour filtering loop of `scan_for_bubbles` (omr_processor.py lines
56-82): keep a contour iff its area lies strictly between 0.5 and 5 times
the expected area `π r²`, its perimeter is nonzero, its circularity
`4π·area/perimeter²` exceeds 0.85, and its zeroth moment is nonzero. -/
def scanFilter (radius : ℕ) (contours : List Contour) : List Candidate :=
  contours.filterMap (fun cnt =>
    let expected_area := np_pi * ((radius : ℚ) ^ 2)
    if expected_area * (1 / 2) < cnt.area ∧ cnt.area < expected_area * 5 then
      if cnt.perimeter = 0 then none
      else
        let circularity := 4 * np_pi * (cnt.area / (cnt.perimeter * cnt.perimeter))
        if circularity > 0.85 then
          if cnt.m00 ≠ 0 then
            some ⟨cnt.cX, cnt.cY, radius, cnt.area, circularity⟩
          else none
        else none
    else none)

/-- Descending-by-area order used by `candidates.sort(key=..., reverse=True)`. -/
def areaGe (a b : Candidate) : Prop := b.area ≤ a.area

instance : DecidableRel areaGe := fun a b => inferInstanceAs (Decidable (b.area ≤ a.area))

instance : IsTotal Candidate areaGe := ⟨fun a b => le_total b.area a.area⟩

instance : IsTrans Candidate areaGe := ⟨fun _ _ _ h1 h2 => le_trans h2 h1⟩

/-- Two candidates collide when their centres are within 10 px
(`dist < 10` on the Euclidean distance, i.e. squared distance < 100). -/
def closeBy (c k : Candidate) : Prop := (c.x - k.x) ^ 2 + (c.y - k.y) ^ 2 < 100

instance : DecidableRel closeBy :=
  fun c k => inferInstanceAs (Decidable ((c.x - k.x) ^ 2 + (c.y - k.y) ^ 2 < 100))

/-- One step of the greedy duplicate-suppression loop: keep candidate `c`
unless it collides with an already-kept candidate. -/
def nmsStep (kept : List Candidate) (c : Candidate) : List Candidate :=
  if kept.any (fun k => decide (closeBy c k)) then kept else kept ++ [c]

/-- Duplicate suppression (omr_processor.py lines 84-104): sort by area
descending (stable, ties in input order), then greedily keep. -/
def nmsDedup (cands : List Candidate) : List Candidate :=
  (List.insertionSort areaGe cands).foldl nmsStep []

/-- Full `scan_for_bubbles`: contour filtering followed by duplicate
suppression. -/
def scan_for_bubbles (radius : ℕ) (contours : List Contour) : List Candidate :=
  nmsDedup (scanFilter radius contours)

theorem closeBy_symm {c k : Candidate} (h : closeBy c k) : closeBy k c := by
  unfold closeBy at h ⊢
  have h1 : (k.x - c.x) ^ 2 = (c.x - k.x) ^ 2 := by ring
  have h2 : (k.y - c.y) ^ 2 = (c.y - k.y) ^ 2 := by ring
  rw [h1, h2]
  exact h

theorem nmsStep_sublist (kept : List Candidate) (c : Candidate) :
    ∃ t, nmsStep kept c = kept ++ t ∧ List.Sublist t [c] := by
  unfold nmsStep
  by_cases h : kept.any (fun k => decide (closeBy c k))
  · exact ⟨[], by simp [h], List.nil_sublist _⟩
  · exact ⟨[c], by simp [h], List.Sublist.refl _⟩

theorem foldl_nmsStep_sublist :
    ∀ (l kept : List Candidate), ∃ t, l.foldl nmsStep kept = kept ++ t ∧ List.Sublist t l := by
  intro l
  induction l with
  | nil => intro kept; exact ⟨[], by simp, List.nil_sublist _⟩
  | cons c rest ih =>
    intro kept
    obtain ⟨t1, ht1, hs1⟩ := nmsStep_sublist kept c
    obtain ⟨t2, ht2, hs2⟩ := ih (nmsStep kept c)
    refine ⟨t1 ++ t2, ?_, ?_⟩
    · rw [List.foldl_cons, ht2, ht1, List.append_assoc]
    · calc List.Sublist (t1 ++ t2) ([c] ++ rest) :=
            List.Sublist.append hs1 hs2
      _ = c :: rest := by simp

theorem nmsDedup_sublist (cands : List Candidate) :
    List.Sublist (nmsDedup cands) (List.insertionSort areaGe cands) := by
  obtain ⟨t, ht, hs⟩ := foldl_nmsStep_sublist (List.insertionSort areaGe cands) []
  rw [nmsDedup, ht]
  simpa using hs

theorem mem_nmsDedup {cands : List Candidate} {c : Candidate} (h : c ∈ nmsDedup cands) :
    c ∈ cands := by
  have h1 := (nmsDedup_sublist cands).mem h
  exact (List.perm_insertionSort areaGe cands).mem_iff.mp h1

/-- Membership characterisation of the filtering stage. -/
theorem mem_scanFilter {radius : ℕ} {contours : List Contour} {c : Candidate}
    (h : c ∈ scanFilter radius contours) :
    ∃ cnt ∈ contours,
      c = ⟨cnt.cX, cnt.cY, radius, cnt.area,
            4 * np_pi * (cnt.area / (cnt.perimeter * cnt.perimeter))⟩ ∧
      np_pi * ((radius : ℚ) ^ 2) * (1 / 2) < cnt.area ∧
      cnt.area < np_pi * ((radius : ℚ) ^ 2) * 5 ∧
      cnt.perimeter ≠ 0 ∧
      4 * np_pi * (cnt.area / (cnt.perimeter * cnt.perimeter)) > 0.85 := by
  rw [scanFilter, List.mem_filterMap] at h
  obtain ⟨cnt, hmem, heq⟩ := h
  by_cases h1 : np_pi * ((radius : ℚ) ^ 2) * (1 / 2) < cnt.area ∧
      cnt.area < np_pi * ((radius : ℚ) ^ 2) * 5
  · rw [if_pos h1] at heq
    by_cases h2 : cnt.perimeter = 0
    · rw [if_pos h2] at heq
      exact absurd heq (by simp)
    · rw [if_neg h2] at heq
      by_cases h3 : 4 * np_pi * (cnt.area / (cnt.perimeter * cnt.perimeter)) > 0.85
      · rw [if_pos h3] at heq
        by_cases h4 : cnt.m00 ≠ 0
        · rw [if_pos h4] at heq
          simp at heq
          exact ⟨cnt, hmem, heq.symm, h1.1, h1.2, h2, h3⟩
        · rw [if_neg h4] at heq
          exact absurd heq (by simp)
      · rw [if_neg h3] at heq
        exact absurd heq (by simp)
  · rw [if_neg h1] at heq
    exact absurd heq (by simp)

theorem nmsDedup_pairwise (cands : List Candidate) :
    List.Pairwise (fun a b => ¬ closeBy b a) (nmsDedup cands) := by
  rw [nmsDedup]
  generalize List.insertionSort areaGe cands = l
  have main : ∀ (l kept : List Candidate),
      List.Pairwise (fun a b => ¬ closeBy b a) kept →
      List.Pairwise (fun a b => ¬ closeBy b a) (l.foldl nmsStep kept) := by
    intro l
    induction l with
    | nil => intro kept h; simpa using h
    | cons c t ih =>
      intro kept h
      rw [List.foldl_cons]
      refine ih _ ?_
      unfold nmsStep
      by_cases hany : kept.any (fun k => decide (closeBy c k))
      · rw [if_pos hany]; exact h
      · rw [if_neg hany]
        rw [List.pairwise_append]
        refine ⟨h, by simp, ?_⟩
        intro a ha b hb
        simp only [List.mem_singleton] at hb
        subst hb
        simp only [Bool.not_eq_true, List.any_eq_false, decide_eq_true_eq] at hany
        exact hany a ha
  exact main l [] (by simp)

theorem nmsDedup_sorted (cands : List Candidate) :
    List.Sorted areaGe (nmsDedup cands) :=
  List.Pairwise.sublist (nmsDedup_sublist cands) (List.sorted_insertionSort areaGe cands)

theorem foldl_nmsStep_of_far :
    ∀ (l kept : List Candidate),
      (∀ c ∈ l, ∀ k ∈ kept, ¬ closeBy c k) →
      List.Pairwise (fun a b => ¬ closeBy b a) l →
      l.foldl nmsStep kept = kept ++ l := by
  intro l
  induction l with
  | nil => intro kept _ _; simp
  | cons c t ih =>
    intro kept hfar hpw
    have hany : kept.any (fun k => decide (closeBy c k)) = false := by
      rw [List.any_eq_false]
      intro k hk
      simpa using hfar c (List.mem_cons_self c t) k hk
    rw [List.foldl_cons]
    rw [show nmsStep kept c = kept ++ [c] by unfold nmsStep; rw [hany]; simp]
    rw [ih (kept ++ [c]) ?_ (List.Pairwise.of_cons hpw), List.append_assoc]
    · simp
    · intro c2 hc2 k hk
      rcases List.mem_append.mp hk with h | h
      · exact hfar c2 (List.mem_cons_of_mem c hc2) k h
      · simp at h
        subst h
        exact (List.rel_of_pairwise_cons hpw hc2)

/-- C9: duplicate suppression (stable sort by descending area followed by the
greedy keep-unless-within-10px pass) is idempotent: running it on its own
output returns that output unchanged. -/
theorem nmsDedup_idempotent (cands : List Candidate) :
    nmsDedup (nmsDedup cands) = nmsDedup cands := by
  have hsorted := nmsDedup_sorted cands
  have hpw := nmsDedup_pairwise cands
  rw [nmsDedup, hsorted.insertionSort_eq]
  rw [foldl_nmsStep_of_far (nmsDedup cands) [] (by simp) hpw]
  simp

/-- C4: every Mark Candidate emitted by the detector has an area within
[0.5·πr², 5·πr²] and circularity above 0.85, where the circularity is
4π·area/perimeter² for the originating contour; no boundary violating either
condition is emitted. -/
theorem scan_emits_only_valid_candidates (radius : ℕ) (contours : List Contour)
    (c : Candidate) (h : c ∈ scan_for_bubbles radius contours) :
    np_pi * ((radius : ℚ) ^ 2) * (1 / 2) ≤ c.area ∧
    c.area ≤ np_pi * ((radius : ℚ) ^ 2) * 5 ∧
    c.circ > 0.85 ∧
    ∃ cnt ∈ contours, c.area = cnt.area ∧ cnt.perimeter ≠ 0 ∧
      c.circ = 4 * np_pi * (cnt.area / (cnt.perimeter * cnt.perimeter)) := by
  have hf : c ∈ scanFilter radius contours := mem_nmsDedup h
  obtain ⟨cnt, hmem, hc, h1, h2, hper, hcirc⟩ := mem_scanFilter hf
  subst hc
  exact ⟨le_of_lt h1, le_of_lt h2, hcirc, cnt, hmem, rfl, hper, rfl⟩

/-- Witness for C4 at a concrete contour list: a single circular contour of
area 1520 and perimeter 138 at nominal radius 22 survives the scan and the
theorem yields its bounds. -/
theorem scan_emits_only_valid_candidates_witness :
    (⟨100, 200, 22, 1520, 4 * np_pi * (1520 / (138 * 138))⟩ : Candidate) ∈
        scan_for_bubbles 22 [⟨1520, 138, 1, 100, 200⟩] ∧
      np_pi * ((22 : ℚ) ^ 2) * (1 / 2) ≤
        (⟨100, 200, 22, 1520, 4 * np_pi * (1520 / (138 * 138))⟩ : Candidate).area ∧
      (⟨100, 200, 22, 1520, 4 * np_pi * (1520 / (138 * 138))⟩ : Candidate).circ > 0.85 := by
  have hmem : (⟨100, 200, 22, 1520, 4 * np_pi * (1520 / (138 * 138))⟩ : Candidate) ∈
      scan_for_bubbles 22 [⟨1520, 138, 1, 100, 200⟩] := by decide
  have h := scan_emits_only_valid_candidates 22 [⟨1520, 138, 1, 100, 200⟩] _ hmem
  exact ⟨hmem, h.1, h.2.2.1⟩

/-! ## Fill Evaluator (`evaluate_bubbles`) -/

/-- A binarized page: dimensions plus an ink predicate per pixel
(`thresh_img[y, x] ≠ 0`). The mask drawn by `cv2.circle(..., -1)` is
modelled as the set of integer pixels within Euclidean distance
`mask_radius` of the centre. -/
structure BinImage where
  width : ℕ
  height : ℕ
  ink : ℕ → ℕ → Bool

/-- The pixel grid of the image, as the list of all `(x, y)` coordinates. -/
def gridPixels (w h : ℕ) : List (ℕ × ℕ) :=
  (List.range w).flatMap (fun px => (List.range h).map (fun py => (px, py)))

/-- Membership of a pixel in the sampled inner disk. -/
def inDisk (cx cy : ℤ) (mr : ℕ) (p : ℕ × ℕ) : Bool :=
  ((p.1 : ℤ) - cx) ^ 2 + ((p.2 : ℤ) - cy) ^ 2 ≤ (mr : ℤ) ^ 2

/-- The code's `mask_radius = int(b['r'] * 0.6)`, floored to at least 2
(integer truncation of `0.6·r`; exact 3/5 here, while the float computation
may differ by one at exact multiples of 5, which no claim depends on). -/
def maskRadius (r : ℕ) : ℕ := max 2 (Int.toNat ((r : ℤ) * 3 / 5))

/-- `cv2.countNonZero` of the AND of the threshold image and the disk mask:
the number of ink pixels of the image inside the disk. -/
def filledPixels (img : BinImage) (cx cy : ℤ) (mr : ℕ) : ℕ :=
  (gridPixels img.width img.height).countP (fun p => inDisk cx cy mr p && img.ink p.1 p.2)

/-- The code's `total_pixels = np.pi * mask_radius ** 2` — the analytic disk
area, not the pixel count of the rasterised disk. -/
def totalPixels (mr : ℕ) : ℚ := np_pi * (mr : ℚ) ^ 2

/-- Fill ratio of one mark (omr_processor.py lines 439-455):
`filled_pixels / total_pixels if total_pixels > 0 else 0`. -/
def fillRatioAt (img : BinImage) (cx cy : ℤ) (mr : ℕ) : ℚ :=
  if totalPixels mr > 0 then (filledPixels img cx cy mr : ℚ) / totalPixels mr else 0

/-- Fill ratio computed by `evaluate_bubbles` for a mark of nominal
radius `r` centred at `(x, y)`. -/
def evalFillRatio (img : BinImage) (x y : ℤ) (r : ℕ) : ℚ :=
  fillRatioAt img x y (maskRadius r)

theorem np_pi_pos : 0 < np_pi := by decide

theorem totalPixels_pos (mr : ℕ) (h : 0 < mr) : 0 < totalPixels mr := by
  unfold totalPixels
  have hm : (0 : ℚ) < (mr : ℚ) := by exact_mod_cast h
  exact mul_pos np_pi_pos (pow_pos hm 2)

theorem maskRadius_pos (r : ℕ) : 0 < maskRadius r := by
  unfold maskRadius
  omega

/-- Counterexample input for C5: a fully inked 5×5 image. -/
def allInkImage : BinImage := ⟨5, 5, fun _ _ => true⟩

/-- Counterexample to C5 as stated: for a mark of nominal radius 4 (inner
disk radius 2) centred at (2,2) on a fully inked image, the computed fill
ratio is 13 / (4π) ≈ 1.0345 > 1, because the denominator is the analytic
disk area `π·mask_radius²` while the numerator counts the 13 grid pixels of
the rasterised disk; so the ratio neither stays within [0,1] nor equals 1.0
on a fully inked disk. -/
theorem fillRatio_can_exceed_one : evalFillRatio allInkImage 2 2 4 > 1 := by decide

/-- C5 (amended): the fill ratio is nonnegative; it is 0 whenever the
binarized image has no ink pixel inside the sampled inner disk; and when
every pixel of the inner disk is inked it equals
(pixel count of the disk) / (π·mask_radius²) — a value close to, but not
necessarily equal to (and possibly above), 1. -/
theorem evalFillRatio_nonneg_zero_full (img : BinImage) (x y : ℤ) (r : ℕ) :
    0 ≤ evalFillRatio img x y r ∧
    ((∀ p ∈ gridPixels img.width img.height,
        inDisk x y (maskRadius r) p = true → img.ink p.1 p.2 = false) →
      evalFillRatio img x y r = 0) ∧
    ((∀ p ∈ gridPixels img.width img.height,
        inDisk x y (maskRadius r) p = true → img.ink p.1 p.2 = true) →
      evalFillRatio img x y r =
        ((gridPixels img.width img.height).countP (inDisk x y (maskRadius r)) : ℚ) /
          totalPixels (maskRadius r)) := by
  have htot : 0 < totalPixels (maskRadius r) := totalPixels_pos _ (maskRadius_pos r)
  refine ⟨?_, ?_, ?_⟩
  · unfold evalFillRatio fillRatioAt
    rw [if_pos htot]
    exact div_nonneg (Nat.cast_nonneg _) (le_of_lt htot)
  · intro hno
    unfold evalFillRatio fillRatioAt
    rw [if_pos htot]
    have hcnt : filledPixels img x y (maskRadius r) = 0 := by
      unfold filledPixels
      rw [List.countP_eq_zero]
      intro p hp
      simp only [Bool.and_eq_true, not_and]
      intro hd hi
      rw [hno p hp hd] at hi
      exact Bool.noConfusion hi
    rw [hcnt]
    simp
  · intro hall
    unfold evalFillRatio fillRatioAt
    rw [if_pos htot]
    have hcnt : filledPixels img x y (maskRadius r) =
        (gridPixels img.width img.height).countP (inDisk x y (maskRadius r)) := by
      unfold filledPixels
      refine List.countP_congr ?_
      intro p hp
      constructor
      · intro h
        exact (Bool.and_eq_true _ _).mp h |>.1
      · intro h
        exact (Bool.and_eq_true _ _).mpr ⟨h, hall p hp h⟩
    rw [hcnt]

/-- Witness for the amended C5 at concrete inputs: zero on an ink-free
image, and the disk-pixel-count ratio on a fully inked image. -/
theorem evalFillRatio_nonneg_zero_full_witness :
    evalFillRatio ⟨5, 5, fun _ _ => false⟩ 2 2 4 = 0 ∧
      evalFillRatio allInkImage 2 2 4 = (13 : ℚ) / totalPixels 2 := by
  constructor
  · exact (evalFillRatio_nonneg_zero_full ⟨5, 5, fun _ _ => false⟩ 2 2 4).2.1 (by decide)
  · have h := (evalFillRatio_nonneg_zero_full allInkImage 2 2 4).2.2 (by decide)
    rw [h, show maskRadius 4 = 2 from by decide,
      show List.countP (inDisk 2 2 2) (gridPixels allInkImage.width allInkImage.height) = 13
        from by decide]
    norm_num

/-! ## Scorer (main.py lines 144-199) -/

/-- Dictionary lookup with default `""`, modelling
`final_output['responses'].get(q_str, "")` and `answer_key.get(q_str, "")`.
Responses and key are association lists keyed by question number. -/
def lookupD (m : List (ℕ × String)) (q : ℕ) : String := (m.lookup q).getD ""

/-- One row of `score_details`. -/
structure ScoreDetail where
  question : ℕ
  marked : String
  correctAns : String
  status : String
  reason : String
deriving DecidableEq

/-- The scoring accumulator: the three counters and the details list. -/
structure ScoreState where
  correctCount : ℕ
  wrongCount : ℕ
  unansweredCount : ℕ
  details : List ScoreDetail
deriving DecidableEq

/-- Body of the scoring loop for one question number `i`
(main.py lines 160-187). -/
def scoreStep (responses akey : List (ℕ × String)) (st : ScoreState) (i : ℕ) : ScoreState :=
  let response := lookupD responses i
  let correct := lookupD akey i
  if response ≠ "" then
    if response = "MULTIPLE" then
      { st with
        wrongCount := st.wrongCount + 1
        details := st.details ++
          [⟨i, response, correct, "INVALID_MULTIPLE", "Multiple options filled"⟩] }
    else if response = correct then
      { st with
        correctCount := st.correctCount + 1
        details := st.details ++ [⟨i, response, correct, "CORRECT", ""⟩] }
    else
      { st with
        wrongCount := st.wrongCount + 1
        details := st.details ++ [⟨i, response, correct, "WRONG", ""⟩] }
  else
    { st with
      unansweredCount := st.unansweredCount + 1
      details := st.details ++ [⟨i, response, correct, "UNANSWERED", ""⟩] }

/-- The scored range's upper end `max_q` (main.py lines 151-158): the
maximum question number appearing in the responses or the answer key, or
60 when both are empty. -/
def maxQuestion (responses akey : List (ℕ × String)) : ℕ :=
  let qs := responses.map Prod.fst ++ akey.map Prod.fst
  if qs = [] then 60 else qs.foldl max 0

/-- The scoring loop over questions `1 .. max_q`. -/
def runScoring (responses akey : List (ℕ × String)) : ScoreState :=
  (List.range' 1 (maxQuestion responses akey)).foldl (scoreStep responses akey) ⟨0, 0, 0, []⟩

/-- Status string assigned to one question, mirroring the branch structure
of the loop body. -/
def statusOf (response correct : String) : String :=
  if response ≠ "" then
    if response = "MULTIPLE" then "INVALID_MULTIPLE"
    else if response = correct then "CORRECT"
    else "WRONG"
  else "UNANSWERED"

/-- The detail row emitted for question `i`. -/
def detailOf (responses akey : List (ℕ × String)) (i : ℕ) : ScoreDetail :=
  ⟨i, lookupD responses i, lookupD akey i,
    statusOf (lookupD responses i) (lookupD akey i),
    if lookupD responses i ≠ "" ∧ lookupD responses i = "MULTIPLE"
      then "Multiple options filled" else ""⟩

theorem scoreStep_eq (responses akey : List (ℕ × String)) (st : ScoreState) (i : ℕ) :
    scoreStep responses akey st i =
      ⟨st.correctCount + (if statusOf (lookupD responses i) (lookupD akey i) = "CORRECT"
          then 1 else 0),
       st.wrongCount + (if statusOf (lookupD responses i) (lookupD akey i) = "WRONG" ∨
          statusOf (lookupD responses i) (lookupD akey i) = "INVALID_MULTIPLE" then 1 else 0),
       st.unansweredCount + (if statusOf (lookupD responses i) (lookupD akey i) = "UNANSWERED"
          then 1 else 0),
       st.details ++ [detailOf responses akey i]⟩ := by
  by_cases h1 : lookupD responses i = ""
  · have hs : statusOf (lookupD responses i) (lookupD akey i) = "UNANSWERED" := by
      unfold statusOf; simp [h1]
    have hd : detailOf responses akey i =
        ⟨i, lookupD responses i, lookupD akey i, "UNANSWERED", ""⟩ := by
      unfold detailOf; rw [hs]; simp [h1]
    simp only [scoreStep, hs, hd]
    simp [h1]
  · by_cases h2 : lookupD responses i = "MULTIPLE"
    · have hs : statusOf (lookupD responses i) (lookupD akey i) = "INVALID_MULTIPLE" := by
        unfold statusOf; simp [h1, h2]
      have hd : detailOf responses akey i =
          ⟨i, lookupD responses i, lookupD akey i, "INVALID_MULTIPLE",
            "Multiple options filled"⟩ := by
        unfold detailOf; rw [hs]; simp [h1, h2]
      simp only [scoreStep, hs, hd]
      simp [h1, h2]
    · by_cases h3 : lookupD responses i = lookupD akey i
      · have h1' : ¬ lookupD akey i = "" := h3 ▸ h1
        have h2' : ¬ lookupD akey i = "MULTIPLE" := h3 ▸ h2
        have hs : statusOf (lookupD responses i) (lookupD akey i) = "CORRECT" := by
          unfold statusOf; simp [h1, h2, h3, h1', h2']
        have hd : detailOf responses akey i =
            ⟨i, lookupD responses i, lookupD akey i, "CORRECT", ""⟩ := by
          unfold detailOf; rw [hs]; simp [h2]
        simp only [scoreStep, hs, hd]
        simp [h1, h2, h3, h1', h2']
      · have hs : statusOf (lookupD responses i) (lookupD akey i) = "WRONG" := by
          unfold statusOf; simp [h1, h2, h3]
        have hd : detailOf responses akey i =
            ⟨i, lookupD responses i, lookupD akey i, "WRONG", ""⟩ := by
          unfold detailOf; rw [hs]; simp [h2]
        simp only [scoreStep, hs, hd]
        simp [h1, h2, h3]

theorem foldl_scoreStep (responses akey : List (ℕ × String)) :
    ∀ (l : List ℕ) (st : ScoreState),
      l.foldl (scoreStep responses akey) st =
        ⟨st.correctCount + l.countP (fun i =>
            statusOf (lookupD responses i) (lookupD akey i) == "CORRECT"),
         st.wrongCount + l.countP (fun i =>
            statusOf (lookupD responses i) (lookupD akey i) == "WRONG" ||
            statusOf (lookupD responses i) (lookupD akey i) == "INVALID_MULTIPLE"),
         st.unansweredCount + l.countP (fun i =>
            statusOf (lookupD responses i) (lookupD akey i) == "UNANSWERED"),
         st.details ++ l.map (detailOf responses akey)⟩ := by
  intro l
  induction l with
  | nil => intro st; simp
  | cons i t ih =>
    intro st
    rw [List.foldl_cons, scoreStep_eq, ih]
    simp only [List.countP_cons, List.map_cons, ScoreState.mk.injEq]
    refine ⟨?_, ?_, ?_, ?_⟩
    · by_cases h : statusOf (lookupD responses i) (lookupD akey i) = "CORRECT" <;>
        simp [h] <;> omega
    · by_cases h1 : statusOf (lookupD responses i) (lookupD akey i) = "WRONG" <;>
        by_cases h2 : statusOf (lookupD responses i) (lookupD akey i) = "INVALID_MULTIPLE" <;>
        simp [h1, h2] <;> omega
    · by_cases h : statusOf (lookupD responses i) (lookupD akey i) = "UNANSWERED" <;>
        simp [h] <;> omega
    · simp

theorem runScoring_eq (responses akey : List (ℕ × String)) :
    runScoring responses akey =
      ⟨(List.range' 1 (maxQuestion responses akey)).countP (fun i =>
          statusOf (lookupD responses i) (lookupD akey i) == "CORRECT"),
       (List.range' 1 (maxQuestion responses akey)).countP (fun i =>
          statusOf (lookupD responses i) (lookupD akey i) == "WRONG" ||
          statusOf (lookupD responses i) (lookupD akey i) == "INVALID_MULTIPLE"),
       (List.range' 1 (maxQuestion responses akey)).countP (fun i =>
          statusOf (lookupD responses i) (lookupD akey i) == "UNANSWERED"),
       (List.range' 1 (maxQuestion responses akey)).map (detailOf responses akey)⟩ := by
  rw [runScoring, foldl_scoreStep]
  simp

theorem statusOf_cases (r k : String) :
    statusOf r k = "UNANSWERED" ∨ statusOf r k = "INVALID_MULTIPLE" ∨
      statusOf r k = "CORRECT" ∨ statusOf r k = "WRONG" := by
  unfold statusOf
  split_ifs <;> simp

theorem countP_three_partition (l : List ℕ) (p1 p2 p3 : ℕ → Bool)
    (h : ∀ i ∈ l, (if p1 i then 1 else 0) + (if p2 i then 1 else 0) +
      (if p3 i then 1 else 0) = 1) :
    l.countP p1 + l.countP p2 + l.countP p3 = l.length := by
  induction l with
  | nil => simp
  | cons a t ih =>
    have ha := h a (List.mem_cons_self a t)
    have ht := ih (fun i hi => h i (List.mem_cons_of_mem a hi))
    rw [List.countP_cons, List.countP_cons, List.countP_cons, List.length_cons]
    by_cases h1 : p1 a <;> by_cases h2 : p2 a <;> by_cases h3 : p3 a <;>
      simp [h1, h2, h3] at ha ⊢ <;> omega

theorem le_foldl_max (l : List ℕ) : ∀ (a : ℕ), a ≤ l.foldl max a := by
  induction l with
  | nil => intro a; simp
  | cons h t ih =>
    intro a
    rw [List.foldl_cons]
    exact le_trans (Nat.le_max_left a h) (ih (max a h))

theorem mem_le_foldl_max (l : List ℕ) : ∀ (a : ℕ), ∀ x ∈ l, x ≤ l.foldl max a := by
  induction l with
  | nil => intro a x hx; simp at hx
  | cons h t ih =>
    intro a x hx
    rcases List.mem_cons.mp hx with h1 | h1
    · subst h1
      exact le_trans (Nat.le_max_right a x) (le_foldl_max t (max a x))
    · exact ih (max a h) x h1

theorem foldl_max_mem (l : List ℕ) : ∀ (a : ℕ), l.foldl max a = a ∨ l.foldl max a ∈ l := by
  induction l with
  | nil => intro a; left; rfl
  | cons h t ih =>
    intro a
    rw [List.foldl_cons]
    rcases ih (max a h) with h1 | h1
    · rcases max_choice a h with h2 | h2
      · left; rw [h1, h2]
      · right; rw [h1, h2]; exact List.mem_cons_self h t
    · right; exact List.mem_cons_of_mem h h1

theorem foldl_max_mem_of_ne_nil (l : List ℕ) (h : l ≠ []) : l.foldl max 0 ∈ l := by
  rcases foldl_max_mem l 0 with h1 | h1
  · cases l with
    | nil => exact absurd rfl h
    | cons x t =>
      have hx := mem_le_foldl_max (x :: t) 0 x (List.mem_cons_self x t)
      rw [h1] at hx ⊢
      have hx0 : x = 0 := Nat.le_zero.mp hx
      rw [← hx0]
      exact List.mem_cons_self x t
  · exact h1

/-- C10: the aggregate counters partition the scored range: correct + wrong
+ unanswered equals `total_questions = max_q`; the per-question detail list
has exactly one row per question number 1..max_q, in order; and `max_q` is
the maximum question number appearing in the responses or the answer key
(60 when both are empty). -/
theorem scoring_counts_partition (responses akey : List (ℕ × String)) :
    (runScoring responses akey).correctCount + (runScoring responses akey).wrongCount +
        (runScoring responses akey).unansweredCount = maxQuestion responses akey ∧
    (runScoring responses akey).details.length = maxQuestion responses akey ∧
    (∀ j, j < maxQuestion responses akey →
      ((runScoring responses akey).details.get? j).map ScoreDetail.question = some (j + 1)) ∧
    (responses.map Prod.fst ++ akey.map Prod.fst = [] → maxQuestion responses akey = 60) ∧
    (∀ q ∈ responses.map Prod.fst ++ akey.map Prod.fst, q ≤ maxQuestion responses akey) ∧
    (responses.map Prod.fst ++ akey.map Prod.fst ≠ [] →
      maxQuestion responses akey ∈ responses.map Prod.fst ++ akey.map Prod.fst) := by
  rw [runScoring_eq]
  refine ⟨?_, ?_, ?_, ?_, ?_, ?_⟩
  · have hpart := countP_three_partition (List.range' 1 (maxQuestion responses akey))
      (fun i => statusOf (lookupD responses i) (lookupD akey i) == "CORRECT")
      (fun i => statusOf (lookupD responses i) (lookupD akey i) == "WRONG" ||
        statusOf (lookupD responses i) (lookupD akey i) == "INVALID_MULTIPLE")
      (fun i => statusOf (lookupD responses i) (lookupD akey i) == "UNANSWERED")
      (fun i _ => by
        rcases statusOf_cases (lookupD responses i) (lookupD akey i) with h | h | h | h <;>
          simp [h])
    simpa using hpart
  · simp
  · intro j hj
    rw [List.get?_map, List.get?_range' _ _ hj]
    simp [detailOf, Nat.add_comm]
  · intro h
    simp only [maxQuestion]
    rw [if_pos h]
  · intro q hq
    simp only [maxQuestion]
    rw [if_neg (List.ne_nil_of_mem hq)]
    exact mem_le_foldl_max _ 0 q hq
  · intro h
    simp only [maxQuestion]
    rw [if_neg h]
    exact foldl_max_mem_of_ne_nil _ h

/-- Witness for C10 at concrete inputs: one response and one key entry give
the partition at max_q = 2, and two empty inputs give max_q = 60. -/
theorem scoring_counts_partition_witness :
    (runScoring [(2, "A")] [(1, "B")]).correctCount +
        (runScoring [(2, "A")] [(1, "B")]).wrongCount +
        (runScoring [(2, "A")] [(1, "B")]).unansweredCount = maxQuestion [(2, "A")] [(1, "B")] ∧
      maxQuestion [] [] = 60 :=
  ⟨(scoring_counts_partition [(2, "A")] [(1, "B")]).1,
   (scoring_counts_partition [] []).2.2.2.1 rfl⟩

/-- C1: in the scored range, a `MULTIPLE` response yields status
`INVALID_MULTIPLE` and is counted by the wrong counter and by neither the
correct nor the unanswered counter; a non-empty response equal to the
answer-key entry (key entries are option letters, never the literal
`MULTIPLE`) yields status `CORRECT` and is counted by the correct counter.
The three counter equations identify each counter with the count of
questions carrying the corresponding statuses. -/
theorem scorer_multiple_and_correct (responses akey : List (ℕ × String)) (i : ℕ)
    (hge : 1 ≤ i) (hle : i ≤ maxQuestion responses akey) :
    (lookupD responses i = "MULTIPLE" →
      (runScoring responses akey).details.get? (i - 1) =
        some ⟨i, "MULTIPLE", lookupD akey i, "INVALID_MULTIPLE", "Multiple options filled"⟩ ∧
      statusOf (lookupD responses i) (lookupD akey i) = "INVALID_MULTIPLE") ∧
    (lookupD responses i ≠ "" → lookupD akey i ≠ "MULTIPLE" →
      lookupD responses i = lookupD akey i →
      (runScoring responses akey).details.get? (i - 1) =
        some ⟨i, lookupD responses i, lookupD akey i, "CORRECT", ""⟩ ∧
      statusOf (lookupD responses i) (lookupD akey i) = "CORRECT") ∧
    (runScoring responses akey).correctCount =
      (List.range' 1 (maxQuestion responses akey)).countP (fun j =>
        statusOf (lookupD responses j) (lookupD akey j) == "CORRECT") ∧
    (runScoring responses akey).wrongCount =
      (List.range' 1 (maxQuestion responses akey)).countP (fun j =>
        statusOf (lookupD responses j) (lookupD akey j) == "WRONG" ||
        statusOf (lookupD responses j) (lookupD akey j) == "INVALID_MULTIPLE") ∧
    (runScoring responses akey).unansweredCount =
      (List.range' 1 (maxQuestion responses akey)).countP (fun j =>
        statusOf (lookupD responses j) (lookupD akey j) == "UNANSWERED") := by
  have hget : (runScoring responses akey).details.get? (i - 1) =
      some (detailOf responses akey i) := by
    rw [runScoring_eq]
    rw [List.get?_map, List.get?_range' _ _ (by omega : i - 1 < maxQuestion responses akey)]
    rw [show 1 + 1 * (i - 1) = i from by omega]
    rfl
  refine ⟨?_, ?_, ?_, ?_, ?_⟩
  · intro hm
    have hs : statusOf (lookupD responses i) (lookupD akey i) = "INVALID_MULTIPLE" := by
      unfold statusOf
      simp [hm]
    refine ⟨?_, hs⟩
    rw [hget]
    unfold detailOf
    rw [hs, hm]
    simp
  · intro hne hkm heq
    have hrm : lookupD responses i ≠ "MULTIPLE" := fun h => hkm (heq ▸ h)
    have hne' : lookupD akey i ≠ "" := fun h => hne (heq ▸ h)
    have hs : statusOf (lookupD responses i) (lookupD akey i) = "CORRECT" := by
      unfold statusOf
      simp [hne, hrm, heq, hne', hkm]
    refine ⟨?_, hs⟩
    rw [hget]
    unfold detailOf
    rw [hs]
    simp [hrm]
  · rw [runScoring_eq]
  · rw [runScoring_eq]
  · rw [runScoring_eq]

/-- Witness for C1: question 1 has a `MULTIPLE` response (status
`INVALID_MULTIPLE`), question 2 matches the key (status `CORRECT`). -/
theorem scorer_multiple_and_correct_witness :
    (runScoring [(1, "MULTIPLE"), (2, "A")] [(1, "A"), (2, "A")]).details.get? 0 =
      some ⟨1, "MULTIPLE", "A", "INVALID_MULTIPLE", "Multiple options filled"⟩ ∧
    (runScoring [(1, "MULTIPLE"), (2, "A")] [(1, "A"), (2, "A")]).details.get? 1 =
      some ⟨2, "A", "A", "CORRECT", ""⟩ := by
  constructor
  · have h := ((scorer_multiple_and_correct [(1, "MULTIPLE"), (2, "A")] [(1, "A"), (2, "A")]
      1 (by decide) (by decide)).1 (by decide)).1
    simpa using h
  · have h := ((scorer_multiple_and_correct [(1, "MULTIPLE"), (2, "A")] [(1, "A"), (2, "A")]
      2 (by decide) (by decide)).2.1 (by decide) (by decide) (by decide)).1
    simpa using h

/-! ## Identification (roll number) validation (main.py lines 64-102)

The filled roll-number marks are given as `(column index, label value)`
pairs, the column index being the one parsed from the mark's
`roll_col{d}_val{l}` identity. -/

/-- Append a value under a key, preserving dict insertion order
(`roll_cols_detected[col_idx].append(...)`). -/
def insertVal : List (ℕ × List String) → ℕ → String → List (ℕ × List String)
  | [], c, v => [(c, [v])]
  | (k, vs) :: rest, c, v =>
    if k = c then (k, vs ++ [v]) :: rest else (k, vs) :: insertVal rest c v

/-- Build `roll_cols_detected`: group the filled roll marks by column. -/
def collectCols (marks : List (ℕ × String)) : List (ℕ × List String) :=
  marks.foldl (fun acc p => insertVal acc p.1 p.2) []

/-- Values recorded for column `c`. -/
def colVals (cols : List (ℕ × List String)) (c : ℕ) : List String :=
  (cols.lookup c).getD []

/-- The scanning loop over the sorted column indices: the first column with
more than one filled value short-circuits with `INVALID` and a reason naming
that column; otherwise each column contributes its single value.
Returns (is_roll_invalid, roll_error_reason, final_roll_chars). -/
def rollScan (cols : List (ℕ × List String)) : List ℕ → Bool × String × List String
  | [] => (false, "", [])
  | c :: rest =>
    let vals := colVals cols c
    if vals.length > 1 then
      (true, "Column " ++ natRepr c ++ " has " ++ natRepr vals.length ++ " bubbles filled",
        ["?"])
    else
      let r := rollScan cols rest
      (r.1, r.2.1, vals.headD "" :: r.2.2)

/-- The roll-number construction of `main`: group filled marks by column,
scan columns in ascending index order, and produce the reported
`(rollNumber, rollValidation)` pair. When no marks exist the code leaves
`rollNumber` empty and sets no validation field, modelled as `("", "")`. -/
def rollResult (marks : List (ℕ × String)) : String × String :=
  let cols := collectCols marks
  if cols = [] then ("", "")
  else
    let sortedKeys := List.insertionSort (· ≤ ·) (cols.map Prod.fst)
    let r := rollScan cols sortedKeys
    if r.1 then ("INVALID", r.2.1)
    else (String.join r.2.2, "OK")

theorem insertVal_keys (acc : List (ℕ × List String)) (c : ℕ) (v : String) :
    (insertVal acc c v).map Prod.fst =
      if c ∈ acc.map Prod.fst then acc.map Prod.fst else acc.map Prod.fst ++ [c] := by
  induction acc with
  | nil => simp [insertVal]
  | cons p rest ih =>
    obtain ⟨k, vs⟩ := p
    by_cases hk : k = c
    · subst hk
      simp [insertVal]
    · rw [show insertVal ((k, vs) :: rest) c v = (k, vs) :: insertVal rest c v from by
        simp [insertVal, hk]]
      simp only [List.map_cons, ih]
      by_cases hm : c ∈ rest.map Prod.fst
      · simp [hm, Ne.symm hk]
      · simp [hm, Ne.symm hk]

theorem collectCols_keys_nodup (marks : List (ℕ × String)) :
    ((collectCols marks).map Prod.fst).Nodup := by
  rw [collectCols]
  have main : ∀ (l : List (ℕ × String)) (acc : List (ℕ × List String)),
      (acc.map Prod.fst).Nodup →
      ((l.foldl (fun acc p => insertVal acc p.1 p.2) acc).map Prod.fst).Nodup := by
    intro l
    induction l with
    | nil => intro acc h; simpa using h
    | cons p t ih =>
      intro acc h
      rw [List.foldl_cons]
      refine ih _ ?_
      rw [insertVal_keys]
      by_cases hm : p.1 ∈ acc.map Prod.fst
      · rw [if_pos hm]; exact h
      · rw [if_neg hm]
        rw [List.nodup_append]
        refine ⟨h, List.nodup_singleton _, ?_⟩
        intro x hx hx2
        simp at hx2
        subst hx2
        exact hm hx
  exact main marks [] (by simp)

theorem rollScan_first_offender (cols : List (ℕ × List String)) :
    ∀ (keys : List ℕ) (c : ℕ), c ∈ keys →
      (colVals cols c).length > 1 →
      (∀ k ∈ keys, k < c → (colVals cols k).length ≤ 1) →
      List.Sorted (· ≤ ·) keys →
      (rollScan cols keys).1 = true ∧
      (rollScan cols keys).2.1 =
        "Column " ++ natRepr c ++ " has " ++ natRepr (colVals cols c).length ++
          " bubbles filled" := by
  intro keys
  induction keys with
  | nil => intro c hc; simp at hc
  | cons k rest ih =>
    intro c hc hlen hmin hsorted
    by_cases hkc : k = c
    · subst hkc
      rw [rollScan]
      simp only
      rw [if_pos hlen]
      exact ⟨rfl, rfl⟩
    · have hcrest : c ∈ rest := by
        rcases List.mem_cons.mp hc with h | h
        · exact absurd h.symm hkc
        · exact h
      have hkle : k ≤ c := List.rel_of_sorted_cons hsorted c hcrest
      have hklt : k < c := lt_of_le_of_ne hkle hkc
      have hk1 : (colVals cols k).length ≤ 1 :=
        hmin k (List.mem_cons_self k rest) hklt
      rw [rollScan]
      simp only
      rw [if_neg (by omega)]
      exact ih c hcrest hlen
        (fun k2 hk2 hk2c => hmin k2 (List.mem_cons_of_mem k hk2) hk2c) hsorted.tail

/-- C6: identification-column scanning visits digit columns in ascending
index order; if some column has more than one filled mark, the least such
column index `c` makes the reported roll number exactly `INVALID`, with the
recorded reason naming `c` and its filled count (later columns are not
consulted: the result depends only on columns up to `c`). -/
theorem roll_invalid_on_first_multifilled_column (marks : List (ℕ × String)) (c : ℕ)
    (hmem : c ∈ (collectCols marks).map Prod.fst)
    (hlen : (colVals (collectCols marks) c).length > 1)
    (hmin : ∀ k ∈ (collectCols marks).map Prod.fst, k < c →
      (colVals (collectCols marks) k).length ≤ 1) :
    rollResult marks =
      ("INVALID", "Column " ++ natRepr c ++ " has " ++
        natRepr (colVals (collectCols marks) c).length ++ " bubbles filled") := by
  have hne : collectCols marks ≠ [] := by
    intro h
    rw [h] at hmem
    simp at hmem
  rw [rollResult]
  simp only
  rw [if_neg hne]
  have hperm := List.perm_insertionSort (· ≤ ·) ((collectCols marks).map Prod.fst)
  have hscan := rollScan_first_offender (collectCols marks)
    (List.insertionSort (· ≤ ·) ((collectCols marks).map Prod.fst)) c
    (hperm.mem_iff.mpr hmem) hlen
    (fun k hk hkc => hmin k (hperm.mem_iff.mp hk) hkc)
    (List.sorted_insertionSort _ _)
  rw [if_pos hscan.1]
  rw [hscan.2]

/-- Witness for C6: column 2 has two filled marks, column 1 only one; the
reported roll number is INVALID with a reason naming column 2. -/
theorem roll_invalid_on_first_multifilled_column_witness :
    rollResult [(1, "4"), (2, "7"), (2, "9")] =
      ("INVALID", "Column " ++ natRepr 2 ++ " has " ++
        natRepr (colVals (collectCols [(1, "4"), (2, "7"), (2, "9")]) 2).length ++
        " bubbles filled") :=
  roll_invalid_on_first_multifilled_column [(1, "4"), (2, "7"), (2, "9")] 2
    (by decide) (by decide) (by decide)

/-! ## Digit-cell recognition (`extract_roll_digits`, omr_processor.py
lines 804-866)

The external engine `pytesseract.image_to_string` is an oracle: each call
either throws (modelled `none`, caught by the code's `try/except`) or
returns a text. A call is identified by the morphological variant it is
given (`eroded`/`original`/`dilated` for the digit-whitelist passes) or by
the raw unconstrained fallback pass. -/

/-- The three morphological variants prepared for recognition. Erosion of
the dark-on-light canvas thickens the stroke; dilation thins it. -/
inductive Variant where
  | eroded
  | original
  | dilated
deriving DecidableEq

/-- One external recognition call. -/
inductive OcrCall where
  | digitPass (v : Variant)
  | rawPass
deriving DecidableEq

/-- Python `str.strip()`. -/
def pyStrip (s : String) : String :=
  ⟨((s.data.dropWhile Char.isWhitespace).reverse.dropWhile Char.isWhitespace).reverse⟩

/-- Python truthiness plus `str.isdigit()`: nonempty and all digits
(`if c and c.isdigit()`). -/
def isDigitStr (s : String) : Bool := s ≠ "" && s.data.all Char.isDigit

/-- Python `s[0]` as a one-character string (for nonempty `s`). -/
def strTake1 (s : String) : String := ⟨s.data.take 1⟩

/-- The pass order of the code: `[("eroded", ...), ("original", ...),
("dilated", ...)]` — thickened first, then unmodified, then thinned. -/
def passOrder : List Variant := [Variant.eroded, Variant.original, Variant.dilated]

/-- The digit-whitelist loop: the first pass whose stripped result is a
nonempty all-digit string contributes its first character; an exception
(`none`) or invalid text moves to the next pass; all failing leaves `"?"`. -/
def tryDigitPassList (ocr : Variant → Option String) : List Variant → String
  | [] => "?"
  | v :: rest =>
    match ocr v with
    | none => tryDigitPassList ocr rest
    | some txt =>
      let c := pyStrip txt
      if isDigitStr c then strTake1 c else tryDigitPassList ocr rest

/-- The three digit-only passes in the code's order. -/
def tryDigitPasses (ocr : Variant → Option String) : String :=
  tryDigitPassList ocr passOrder

/-- The pass order claimed by the specification: thinned (dilated) first,
then unmodified, then thickened (eroded). Modelled from the spec for
comparison with the source's `passOrder`. -/
def spec_passOrder : List Variant := [Variant.dilated, Variant.original, Variant.eroded]

/-- The digit-only multi-pass recognition as the specification words it,
differing from `tryDigitPasses` only in the claimed pass order. -/
def tryDigitPasses_specOrder (ocr : Variant → Option String) : String :=
  tryDigitPassList ocr spec_passOrder

/-- The symbol-confusion table of the fallback pass. -/
def corrections : List (String × String) :=
  [("|", "1"), ("I", "1"), ("l", "1"), ("!", "1"), ("]", "1"),
   ("A", "4"), ("H", "4"),
   ("b", "6"), ("G", "6"),
   ("g", "9"), ("q", "9"),
   ("S", "5"), ("s", "5"), ("$", "5"),
   ("Z", "2"), ("z", "2"),
   ("B", "8"),
   ("O", "0"), ("D", "0")]

/-- The unconstrained fallback pass with typo correction: a thrown call or
an uncorrectable text leaves `"?"`; a direct table hit wins; otherwise the
first character is looked up, and any text containing an `A` is read as 4. -/
def fallbackCorrect (raw : Option String) : String :=
  match raw with
  | none => "?"
  | some txt =>
    let rawTxt := pyStrip txt
    match corrections.lookup rawTxt with
    | some d => d
    | none =>
      if rawTxt ≠ "" then
        let viaFirst := (corrections.lookup (strTake1 rawTxt)).getD "?"
        if rawTxt.data.contains 'A' then "4" else viaFirst
      else "?"

/-- Recognition of one digit cell: the three digit-only passes, then the
fallback pass when they all fail. -/
def recognizeCell (ocr : OcrCall → Option String) : String :=
  let d := tryDigitPasses (fun v => ocr (OcrCall.digitPass v))
  if d = "?" then fallbackCorrect (ocr OcrCall.rawPass) else d

/-- Concatenation in cell order (`"".join(detected_res)`). -/
def strJoin : List String → String
  | [] => ""
  | s :: rest => s ++ strJoin rest

/-- `extract_roll_digits`, at the per-cell level: each cell has its own
oracle (its own image content); the result is one character per cell. -/
def extract_roll_digits (cells : List (OcrCall → Option String)) : String :=
  strJoin (cells.map recognizeCell)

/-- A digit-pass outcome that does not produce a digit: the call threw, or
its stripped text is not a nonempty digit string. -/
def digitPassFails (r : Option String) : Prop :=
  ∀ t, r = some t → isDigitStr (pyStrip t) = false

/-- A fallback outcome that resolves nothing: the call threw, or its
stripped text has no direct table entry, and either is empty or has no
first-character entry and no `A`. -/
def fallbackFails (r : Option String) : Prop :=
  ∀ t, r = some t →
    (corrections.lookup (pyStrip t) = none ∧
      (pyStrip t = "" ∨
        (corrections.lookup (strTake1 (pyStrip t)) = none ∧
          (pyStrip t).data.contains 'A' = false)))

theorem tryDigitPassList_all_fail (ocr : Variant → Option String) :
    ∀ (l : List Variant), (∀ v ∈ l, digitPassFails (ocr v)) →
      tryDigitPassList ocr l = "?" := by
  intro l
  induction l with
  | nil => intro _; rfl
  | cons v rest ih =>
    intro h
    rw [tryDigitPassList]
    cases hv : ocr v with
    | none => exact ih (fun v2 hv2 => h v2 (List.mem_cons_of_mem v hv2))
    | some txt =>
      simp only
      rw [if_neg (by
        have := h v (List.mem_cons_self v rest) txt hv
        simp [this])]
      exact ih (fun v2 hv2 => h v2 (List.mem_cons_of_mem v hv2))

theorem fallbackCorrect_all_fail {r : Option String} (h : fallbackFails r) :
    fallbackCorrect r = "?" := by
  cases r with
  | none => rfl
  | some txt =>
    obtain ⟨h1, h2⟩ := h txt rfl
    rw [fallbackCorrect]
    simp only [h1]
    rcases h2 with h2 | ⟨h3, h4⟩
    · rw [if_neg (by simp [h2])]
    · by_cases he : pyStrip txt = ""
      · rw [if_neg (by simp [he])]
      · rw [if_pos he, if_neg (by simpa using h4), h3]
        rfl

theorem recognizeCell_fails (ocr : OcrCall → Option String)
    (hd : ∀ v, digitPassFails (ocr (OcrCall.digitPass v)))
    (hf : fallbackFails (ocr OcrCall.rawPass)) :
    recognizeCell ocr = "?" := by
  simp only [recognizeCell]
  rw [tryDigitPasses, tryDigitPassList_all_fail _ _ (fun v _ => hd v)]
  rw [if_pos rfl]
  exact fallbackCorrect_all_fail hf

theorem mem_of_lookup_eq_some {l : List (String × String)} {a b : String}
    (h : l.lookup a = some b) : (a, b) ∈ l := by
  obtain ⟨l1, l2, he, h2⟩ := List.lookup_eq_some_iff.mp h
  subst he
  simp

theorem lookup_corrections_len {s v : String} (h : corrections.lookup s = some v) :
    v.data.length = 1 := by
  have hall : ∀ p ∈ corrections, (p.2 : String).data.length = 1 := by decide
  exact hall (s, v) (mem_of_lookup_eq_some h)

theorem data_ne_nil_of_ne_empty {s : String} (h : s ≠ "") : s.data ≠ [] := by
  intro hd
  exact h (congrArg String.mk hd)

theorem strTake1_len {s : String} (h : s ≠ "") : (strTake1 s).data.length = 1 := by
  rw [strTake1]
  simp only
  rw [List.length_take]
  cases hd : s.data with
  | nil => exact absurd hd (data_ne_nil_of_ne_empty h)
  | cons a t => simp

theorem isDigitStr_ne_empty {s : String} (h : isDigitStr s = true) : s ≠ "" := by
  rw [isDigitStr, Bool.and_eq_true] at h
  exact of_decide_eq_true h.1

theorem fallbackCorrect_len (r : Option String) : (fallbackCorrect r).data.length = 1 := by
  cases r with
  | none => rfl
  | some txt =>
    rw [fallbackCorrect]
    simp only
    cases hl : corrections.lookup (pyStrip txt) with
    | some v => exact lookup_corrections_len hl
    | none =>
      by_cases he : pyStrip txt = ""
      · rw [if_neg (by simp [he])]
        rfl
      · rw [if_pos (by simp [he])]
        by_cases ha : (pyStrip txt).data.contains 'A'
        · rw [if_pos ha]
          rfl
        · rw [if_neg ha]
          cases h2 : corrections.lookup (strTake1 (pyStrip txt)) with
          | some v =>
            simp only [h2, Option.getD_some]
            exact lookup_corrections_len h2
          | none =>
            simp only [h2, Option.getD_none]
            rfl

theorem tryDigitPassList_len (ocr : Variant → Option String) :
    ∀ l, tryDigitPassList ocr l = "?" ∨ (tryDigitPassList ocr l).data.length = 1 := by
  intro l
  induction l with
  | nil => left; rfl
  | cons v rest ih =>
    rw [tryDigitPassList]
    cases hv : ocr v with
    | none => exact ih
    | some txt =>
      simp only
      by_cases hc : isDigitStr (pyStrip txt) = true
      · rw [if_pos hc]
        right
        exact strTake1_len (isDigitStr_ne_empty hc)
      · rw [if_neg hc]
        exact ih

theorem recognizeCell_length (ocr : OcrCall → Option String) :
    (recognizeCell ocr).data.length = 1 := by
  simp only [recognizeCell]
  by_cases h : tryDigitPasses (fun v => ocr (OcrCall.digitPass v)) = "?"
  · rw [if_pos h]
    exact fallbackCorrect_len _
  · rw [if_neg h]
    rcases tryDigitPassList_len (fun v => ocr (OcrCall.digitPass v)) passOrder with h1 | h1
    · exact absurd h1 h
    · exact h1

theorem extract_roll_digits_spec (cells : List (OcrCall → Option String)) :
    (extract_roll_digits cells).data.length = cells.length ∧
    (∀ j c, cells.get? j = some c → ∃ ch, (recognizeCell c).data = [ch] ∧
      (extract_roll_digits cells).data.get? j = some ch) := by
  induction cells with
  | nil => exact ⟨rfl, by intro j c h; simp at h⟩
  | cons c0 t ih =>
    have hdata : (extract_roll_digits (c0 :: t)).data =
        (recognizeCell c0).data ++ (extract_roll_digits t).data := by
      rw [extract_roll_digits, List.map_cons]
      rw [show strJoin (recognizeCell c0 :: t.map recognizeCell) =
        recognizeCell c0 ++ strJoin (t.map recognizeCell) from rfl]
      rw [String.data_append]
      rfl
    obtain ⟨ch0, hch0⟩ : ∃ ch, (recognizeCell c0).data = [ch] := by
      have := recognizeCell_length c0
      cases hd : (recognizeCell c0).data with
      | nil => rw [hd] at this; simp at this
      | cons a t2 =>
        rw [hd] at this
        simp at this
        exact ⟨a, by rw [this]⟩
    constructor
    · rw [hdata, List.length_append, hch0, ih.1]
      simp only [List.length_cons, List.length_nil]
      omega
    · intro j c hj
      cases j with
      | zero =>
        simp at hj
        subst hj
        exact ⟨ch0, hch0, by rw [hdata, hch0]; rfl⟩
      | succ k =>
        simp only [List.get?_cons_succ] at hj
        obtain ⟨ch, hch, hget⟩ := ih.2 k c hj
        refine ⟨ch, hch, ?_⟩
        rw [hdata, hch0]
        simpa using hget

/-- C8: when every external recognition call for one digit cell throws or
yields no valid digit — the three digit-only passes, the unconstrained
fallback pass, and the symbol-confusion table all failing —
`extract_roll_digits` does not propagate the failure: that cell's position
in the output holds the unknown-digit sentinel `?`, the output still has one
character per cell, and every other cell is still processed to its own
recognition result. -/
theorem extract_never_propagates (cells : List (OcrCall → Option String))
    (j : ℕ) (cell : OcrCall → Option String)
    (hj : cells.get? j = some cell)
    (hd : ∀ v, digitPassFails (cell (OcrCall.digitPass v)))
    (hf : fallbackFails (cell OcrCall.rawPass)) :
    (extract_roll_digits cells).data.length = cells.length ∧
    (extract_roll_digits cells).data.get? j = some '?' ∧
    (∀ k ck, cells.get? k = some ck → ∃ ch, (recognizeCell ck).data = [ch] ∧
      (extract_roll_digits cells).data.get? k = some ch) := by
  obtain ⟨hlen, hcells⟩ := extract_roll_digits_spec cells
  refine ⟨hlen, ?_, hcells⟩
  obtain ⟨ch, hch, hget⟩ := hcells j cell hj
  have hq : recognizeCell cell = "?" := recognizeCell_fails cell hd hf
  rw [hq] at hch
  simp at hch
  rw [hget, hch]

/-- A concrete oracle for the C8 witness: every call throws. -/
def throwingOcr : OcrCall → Option String := fun _ => none

/-- Witness for C8: two cells whose calls all throw still produce a
two-character output of sentinels. -/
theorem extract_never_propagates_witness :
    (extract_roll_digits [throwingOcr, throwingOcr]).data.length = 2 ∧
    (extract_roll_digits [throwingOcr, throwingOcr]).data.get? 1 = some '?' := by
  have h := extract_never_propagates [throwingOcr, throwingOcr] 1 throwingOcr rfl
    (fun v t ht => Option.noConfusion ht) (fun t ht => Option.noConfusion ht)
  exact ⟨h.1, h.2.1⟩

/-- Counterexample input for C7: the dilated (thinned) pass reads 7, the
eroded (thickened) pass reads 3, the unmodified pass throws. -/
def orderCexOcr : Variant → Option String := fun v =>
  match v with
  | Variant.eroded => some "3"
  | Variant.original => none
  | Variant.dilated => some "7"

/-- Counterexample to C7 as stated: the code tries the eroded (thickened)
variant first, not the dilated (thinned) one, so when both would succeed the
cell reads 3 where the spec's order would read 7. -/
theorem passOrder_eroded_first :
    tryDigitPasses orderCexOcr = "3" ∧ tryDigitPasses_specOrder orderCexOcr = "7" ∧
      ("3" : String) ≠ "7" := by
  refine ⟨?_, ?_, by decide⟩ <;> decide

/-- C7 (amended): recognition runs three digit-only passes in the priority
order thickened (eroded) first, then unmodified, then thinned (dilated);
the first pass whose stripped result is a nonempty digit string determines
the cell's digit (its first character) and no later pass is consulted; if
all three fail the digit loop yields the sentinel. -/
theorem tryDigitPasses_priority (ocr : Variant → Option String) :
    (∀ t, ocr Variant.eroded = some t → isDigitStr (pyStrip t) = true →
      tryDigitPasses ocr = strTake1 (pyStrip t)) ∧
    (digitPassFails (ocr Variant.eroded) →
      ∀ t, ocr Variant.original = some t → isDigitStr (pyStrip t) = true →
        tryDigitPasses ocr = strTake1 (pyStrip t)) ∧
    (digitPassFails (ocr Variant.eroded) → digitPassFails (ocr Variant.original) →
      ∀ t, ocr Variant.dilated = some t → isDigitStr (pyStrip t) = true →
        tryDigitPasses ocr = strTake1 (pyStrip t)) ∧
    ((∀ v, digitPassFails (ocr v)) → tryDigitPasses ocr = "?") := by
  have hstep : ∀ (v : Variant) (rest : List Variant), digitPassFails (ocr v) →
      tryDigitPassList ocr (v :: rest) = tryDigitPassList ocr rest := by
    intro v rest hfail
    rw [tryDigitPassList]
    cases hv : ocr v with
    | none => rfl
    | some txt =>
      simp only
      rw [if_neg (by simp [hfail txt hv])]
  have hhit : ∀ (v : Variant) (rest : List Variant) (t : String), ocr v = some t →
      isDigitStr (pyStrip t) = true →
      tryDigitPassList ocr (v :: rest) = strTake1 (pyStrip t) := by
    intro v rest t hv ht
    rw [tryDigitPassList, hv]
    simp only
    rw [if_pos ht]
  refine ⟨?_, ?_, ?_, ?_⟩
  · intro t h1 h2
    exact hhit Variant.eroded _ t h1 h2
  · intro hf1 t h1 h2
    rw [tryDigitPasses, passOrder, hstep _ _ hf1]
    exact hhit Variant.original _ t h1 h2
  · intro hf1 hf2 t h1 h2
    rw [tryDigitPasses, passOrder, hstep _ _ hf1, hstep _ _ hf2]
    exact hhit Variant.dilated _ t h1 h2
  · intro hall
    exact tryDigitPassList_all_fail ocr passOrder (fun v _ => hall v)

/-- A concrete oracle for the C7 witness: the eroded pass throws, the
unmodified pass reads " 8 ", the dilated pass would read 3. -/
def priorityWitnessOcr : Variant → Option String := fun v =>
  match v with
  | Variant.eroded => none
  | Variant.original => some " 8 "
  | Variant.dilated => some "3"

/-- Witness for the amended C7: with the eroded pass throwing, the
unmodified pass's stripped digit wins over the dilated pass. -/
theorem tryDigitPasses_priority_witness :
    tryDigitPasses priorityWitnessOcr = strTake1 (pyStrip " 8 ") :=
  (tryDigitPasses_priority priorityWitnessOcr).2.1
    (fun t ht => Option.noConfusion ht) " 8 " rfl (by decide)

/-! ## Structural Mapper (`map_bubbles_to_structure`, omr_processor.py
lines 225-390)

Only the coordinates of a detected bubble matter to the mapper, so a bubble
is its centre. Mapping annotates marks with identity/group/value and, for
question marks, the question number; roll and booklet marks carry no
question number (`none`). The block configurations are the already-resolved
values the code reads from the template (`rows`, `digits`, `labels`,
`options`, per-block origin x, options count; the per-block `rows` value is
read but never used by the question mapping). -/

structure Bubble where
  x : ℤ
  y : ℤ
deriving DecidableEq

structure MappedMark where
  x : ℤ
  y : ℤ
  id : String
  group : String
  value : String
  question : Option ℕ
deriving DecidableEq

structure RollConf where
  rows : ℕ
  digits : ℕ
  labels : List String
deriving DecidableEq

structure BookletConf where
  options : List String
deriving DecidableEq

structure FieldBlock where
  name : String
  originX : ℤ
  optionsCount : ℕ
deriving DecidableEq

structure Template where
  rollNumber : Option RollConf
  testBookletCode : Option BookletConf
  fieldBlocks : List FieldBlock
deriving DecidableEq

/-- Stable sort by x (Python `sort(key=lambda b: b['x'])`). -/
def sortByX (l : List Bubble) : List Bubble :=
  List.insertionSort (fun a b => a.x ≤ b.x) l

/-- Stable sort by y. -/
def sortByY (l : List Bubble) : List Bubble :=
  List.insertionSort (fun a b => a.y ≤ b.y) l

/-- Marks above the strict y-split `HEADER_Y_LIMIT = 900`. -/
def headerPool (bubbles : List Bubble) : List Bubble :=
  bubbles.filter (fun b => decide (b.y < 900))

/-- Marks at or below the y-split. -/
def questionPool (bubbles : List Bubble) : List Bubble :=
  bubbles.filter (fun b => decide (900 ≤ b.y))

/-- The `(gap, index)` pairs `(q_pool[i].x - q_pool[i-1].x, i)` for
`i = 1 .. len-1`. -/
def xGaps (l : List Bubble) : List (ℤ × ℕ) :=
  (pyEnum (l.zip (l.drop 1))).map (fun p => (p.2.2.x - p.2.1.x, p.1 + 1))

/-- `split_indices = sorted([g[1] for g in gaps if g[0] > 60])`. -/
def columnSplits (l : List Bubble) : List ℕ :=
  List.insertionSort (· ≤ ·) (((xGaps l).filter (fun g => decide (g.1 > 60))).map Prod.snd)

/-- Slicing the sorted question pool at the split indices
(`q_pool[start:split]` slices plus the final `q_pool[start:]`). -/
def sliceAt (l : List Bubble) : List ℕ → ℕ → List (List Bubble)
  | [], start => [l.drop start]
  | s :: rest, start => (l.drop start).take (s - start) :: sliceAt l rest s

/-- The column split indices of a raw candidate list. -/
def columnSplitsOf (bubbles : List Bubble) : List ℕ :=
  columnSplits (sortByX (questionPool bubbles))

/-- The detected question-column groups, left to right. -/
def detectedQuestionCols (bubbles : List Bubble) : List (List Bubble) :=
  sliceAt (sortByX (questionPool bubbles)) (columnSplitsOf bubbles) 0

/-- `num_detected_cols = len(split_indices) + 1`. -/
def numDetectedCols (bubbles : List Bubble) : ℕ :=
  (columnSplitsOf bubbles).length + 1

/-- The row clusters of one detected column group (sorted by y, new row at
a y-gap above 25). -/
def gridRowsOfCol (col : List Bubble) : List (List Bubble) :=
  splitByGap 25 (fun b => b.y) (sortByY col)

/-- `options_list = ["A", "B", "C", "D", "E"]`. -/
def optionsList : List String := ["A", "B", "C", "D", "E"]

/-- `options_list[c] if c < len(options_list) else str(c)`. -/
def optVal (c : ℕ) : String := (optionsList.get? c).getD (natRepr c)

/-- `f'roll_col{d}_val{lbl}'`. -/
def rollId (d : ℕ) (lbl : String) : String := "roll_col" ++ natRepr d ++ "_val" ++ lbl

/-- `f'testBooklet_{opt}'`. -/
def bookletId (opt : String) : String := "testBooklet_" ++ opt

/-- `f'q{q_num}_{opt_val}'`. -/
def questionId (qn : ℕ) (opt : String) : String := "q" ++ natRepr qn ++ "_" ++ opt

/-- `labels[r] if r < len(labels) else str(r)`. -/
def labelAt (conf : RollConf) (r : ℕ) : String := (conf.labels.get? r).getD (natRepr r)

/-- Roll-number zone mapping: header marks left of x = 1100, sorted by x,
clustered into columns at x-gaps above 30; the loop over columns breaks at
`digits` columns (so exactly the first `digits` column groups are used);
within a column (sorted by y) only the first `rows` marks are labelled. -/
def mapRoll (conf : RollConf) (header : List Bubble) : List MappedMark :=
  let cands := sortByX (header.filter (fun b => decide (b.x < 1100)))
  let cols := splitByGap 30 (fun b => b.x) cands
  (pyEnum (cols.take conf.digits)).flatMap (fun dcol =>
    ((pyEnum (sortByY dcol.2)).filter (fun rb => decide (rb.1 < conf.rows))).map (fun rb =>
      { x := rb.2.x, y := rb.2.y, id := rollId dcol.1 (labelAt conf rb.1),
        group := "rollNumber", value := labelAt conf rb.1, question := none }))

/-- Booklet zone mapping: header marks right of x = 1100, sorted by x,
assigned the declared option values in order. -/
def mapBooklet (conf : BookletConf) (header : List Bubble) : List MappedMark :=
  let cands := sortByX (header.filter (fun b => decide (b.x > 1100)))
  (pyEnum cands).filterMap (fun ib =>
    (conf.options.get? ib.1).map (fun opt =>
      { x := ib.2.x, y := ib.2.y, id := bookletId opt,
        group := "testBookletCode", value := opt, question := none }))

/-- `sorted(field_blocks.items(), key=lambda item: item[1]['origin'][0])`. -/
def sortedBlocks (tpl : Template) : List FieldBlock :=
  List.insertionSort (fun a b => a.originX ≤ b.originX) tpl.fieldBlocks

/-- Mapping of one detected column group against block number `i` (0-based)
out of `T` detected columns: row `r` gets question number `r * T + (i + 1)`,
and within a row (sorted by x) the first `optionsCount` marks get option
values A, B, C, ... -/
def mapBlockCol (T : ℕ) (i : ℕ) (blk : FieldBlock) (col : List Bubble) : List MappedMark :=
  (pyEnum (gridRowsOfCol col)).flatMap (fun rrow =>
    ((pyEnum (sortByX rrow.2)).filter (fun cb => decide (cb.1 < blk.optionsCount))).map
      (fun cb =>
        { x := cb.2.x, y := cb.2.y,
          id := questionId (rrow.1 * T + (i + 1)) (optVal cb.1),
          group := blk.name, value := optVal cb.1,
          question := some (rrow.1 * T + (i + 1)) }))

/-- Question zone mapping: abandoned (empty) if fewer than 20 marks are in
the question pool; otherwise blocks (sorted by origin x) are matched in
order with the detected column groups, blocks beyond the detected column
count being skipped. -/
def mapQuestions (tpl : Template) (bubbles : List Bubble) : List MappedMark :=
  if (questionPool bubbles).length < 20 then []
  else
    (pyEnum (sortedBlocks tpl)).flatMap (fun ib =>
      match (detectedQuestionCols bubbles).get? ib.1 with
      | none => []
      | some col => mapBlockCol (numDetectedCols bubbles) ib.1 ib.2 col)

/-- The full structural mapper: roll marks, then booklet marks, then
question marks (the code's append order into `mapped_bubbles`). -/
def map_bubbles_to_structure (tpl : Template) (detected : List Bubble) : List MappedMark :=
  (match tpl.rollNumber with
    | none => []
    | some conf => mapRoll conf (headerPool detected)) ++
  (match tpl.testBookletCode with
    | none => []
    | some conf => mapBooklet conf (headerPool detected)) ++
  mapQuestions tpl detected

theorem mapRoll_question_none {conf : RollConf} {header : List Bubble} {m : MappedMark}
    (h : m ∈ mapRoll conf header) : m.question = none := by
  rw [mapRoll] at h
  simp only [List.mem_flatMap] at h
  obtain ⟨dcol, _, hm⟩ := h
  simp only [List.mem_map] at hm
  obtain ⟨rb, _, hm⟩ := hm
  rw [← hm]

theorem mapBooklet_question_none {conf : BookletConf} {header : List Bubble} {m : MappedMark}
    (h : m ∈ mapBooklet conf header) : m.question = none := by
  rw [mapBooklet] at h
  simp only [List.mem_filterMap] at h
  obtain ⟨ib, _, hm⟩ := h
  simp only [Option.map_eq_some'] at hm
  obtain ⟨opt, _, hm⟩ := hm
  rw [← hm]

/-- C2: every mark that the mapper assigns a question number satisfies the
formula `question = row_index * (number of detected columns) + column_index
+ 1`, where `column_index` is the 0-based left-to-right index of the mark's
detected column group and `row_index` is the mark's 0-based row (clustered
by y-gap) within that group. -/
theorem question_number_formula (tpl : Template) (bubbles : List Bubble) (m : MappedMark)
    (hm : m ∈ map_bubbles_to_structure tpl bubbles) (qn : ℕ) (hq : m.question = some qn) :
    ∃ i col, (detectedQuestionCols bubbles).get? i = some col ∧
      i < (sortedBlocks tpl).length ∧
      ∃ r row, (gridRowsOfCol col).get? r = some row ∧
        (∃ b ∈ row, b.x = m.x ∧ b.y = m.y) ∧
        qn = r * numDetectedCols bubbles + (i + 1) := by
  rw [map_bubbles_to_structure] at hm
  rcases List.mem_append.mp hm with hm1 | hm2
  · rcases List.mem_append.mp hm1 with hr | hb
    · exfalso
      cases hconf : tpl.rollNumber with
      | none => rw [hconf] at hr; simp at hr
      | some conf =>
        rw [hconf] at hr
        rw [mapRoll_question_none hr] at hq
        exact Option.noConfusion hq
    · exfalso
      cases hconf : tpl.testBookletCode with
      | none => rw [hconf] at hb; simp at hb
      | some conf =>
        rw [hconf] at hb
        rw [mapBooklet_question_none hb] at hq
        exact Option.noConfusion hq
  · rw [mapQuestions] at hm2
    by_cases hfew : (questionPool bubbles).length < 20
    · rw [if_pos hfew] at hm2
      simp at hm2
    · rw [if_neg hfew] at hm2
      simp only [List.mem_flatMap] at hm2
      obtain ⟨ib, hib, hmcol⟩ := hm2
      cases hcol : (detectedQuestionCols bubbles).get? ib.1 with
      | none => rw [hcol] at hmcol; simp at hmcol
      | some col =>
        rw [hcol] at hmcol
        unfold mapBlockCol at hmcol
        simp only [List.mem_flatMap] at hmcol
        obtain ⟨rrow, hrrow, hmrow⟩ := hmcol
        simp only [List.mem_map, List.mem_filter] at hmrow
        obtain ⟨cb, ⟨hcb, _⟩, hmeq⟩ := hmrow
        refine ⟨ib.1, col, hcol, ?_, rrow.1, rrow.2, ?_, ?_, ?_⟩
        · have := mem_pyEnum.mp hib
          exact List.get?_eq_some.mp this |>.1
        · exact mem_pyEnum.mp hrrow
        · refine ⟨cb.2, ?_, ?_, ?_⟩
          · have hmem : cb.2 ∈ sortByX rrow.2 :=
              List.get?_mem (mem_pyEnum.mp hcb)
            exact (List.perm_insertionSort _ rrow.2).mem_iff.mp hmem
          · rw [← hmeq]
          · rw [← hmeq]
        · have : m.question = some (rrow.1 * numDetectedCols bubbles + (ib.1 + 1)) := by
            rw [← hmeq]
          rw [this] at hq
          exact (Option.some.injEq _ _).mp hq.symm

/-- A concrete template for witnesses: one question block of 4 options, no
header blocks. -/
def qzTemplate : Template := ⟨none, none, [⟨"Block1", 100, 4⟩]⟩

/-- A concrete 20-mark question zone: one detected column (x-gaps of 40,
below the 60 px separator threshold), five rows of four marks. -/
def qzBubbles : List Bubble :=
  [⟨100, 1000⟩, ⟨140, 1000⟩, ⟨180, 1000⟩, ⟨220, 1000⟩,
   ⟨100, 1030⟩, ⟨140, 1030⟩, ⟨180, 1030⟩, ⟨220, 1030⟩,
   ⟨100, 1060⟩, ⟨140, 1060⟩, ⟨180, 1060⟩, ⟨220, 1060⟩,
   ⟨100, 1090⟩, ⟨140, 1090⟩, ⟨180, 1090⟩, ⟨220, 1090⟩,
   ⟨100, 1120⟩, ⟨140, 1120⟩, ⟨180, 1120⟩, ⟨220, 1120⟩]

/-- Witness for C2: the option-B mark of the second row is mapped with
question number 2 = 1 × 1 + (0 + 1), and the theorem locates it in row 1 of
column 0. -/
theorem question_number_formula_witness :
    (⟨140, 1030, "q2_B", "Block1", "B", some 2⟩ : MappedMark) ∈
        map_bubbles_to_structure qzTemplate qzBubbles ∧
      (∃ i col, (detectedQuestionCols qzBubbles).get? i = some col ∧
        i < (sortedBlocks qzTemplate).length ∧
        ∃ r row, (gridRowsOfCol col).get? r = some row ∧
          (∃ b ∈ row, b.x = (140 : ℤ) ∧ b.y = (1030 : ℤ)) ∧
          2 = r * numDetectedCols qzBubbles + (i + 1)) :=
  ⟨by decide,
   question_number_formula qzTemplate qzBubbles
     ⟨140, 1030, "q2_B", "Block1", "B", some 2⟩ (by decide) 2 (by decide)⟩

/-! ### Identity-string injectivity -/

theorem string_eq_of_data {s t : String} (h : s.data = t.data) : s = t :=
  congrArg String.mk h

theorem rollId_inj {d1 d2 : ℕ} {l1 l2 : String} (h : rollId d1 l1 = rollId d2 l2) :
    d1 = d2 ∧ l1 = l2 := by
  have hd := congrArg String.data h
  simp only [rollId, String.data_append, List.append_assoc] at hd
  have hd2 : ['r', 'o', 'l', 'l', '_', 'c', 'o', 'l'] ++
      ((natRepr d1).data ++ ('_' :: 'v' :: 'a' :: 'l' :: l1.data)) =
      ['r', 'o', 'l', 'l', '_', 'c', 'o', 'l'] ++
      ((natRepr d2).data ++ ('_' :: 'v' :: 'a' :: 'l' :: l2.data)) := by
    simpa using hd
  have hc := List.append_cancel_left hd2
  obtain ⟨hn, hrest⟩ := append_sep_inj _ _ _ _ '_'
    (natRepr_no_underscore d1) (natRepr_no_underscore d2) hc
  have hdd : d1 = d2 := natRepr_inj (string_eq_of_data hn)
  simp only [List.cons.injEq, true_and] at hrest
  exact ⟨hdd, string_eq_of_data hrest⟩

theorem questionId_inj {q1 q2 : ℕ} {o1 o2 : String} (h : questionId q1 o1 = questionId q2 o2) :
    q1 = q2 ∧ o1 = o2 := by
  have hd := congrArg String.data h
  simp only [questionId, String.data_append, List.append_assoc] at hd
  have hd2 : ['q'] ++ ((natRepr q1).data ++ ('_' :: o1.data)) =
      ['q'] ++ ((natRepr q2).data ++ ('_' :: o2.data)) := by
    simpa using hd
  have hc := List.append_cancel_left hd2
  obtain ⟨hn, hrest⟩ := append_sep_inj _ _ _ _ '_'
    (natRepr_no_underscore q1) (natRepr_no_underscore q2) hc
  exact ⟨natRepr_inj (string_eq_of_data hn), string_eq_of_data hrest⟩

theorem bookletId_inj {o1 o2 : String} (h : bookletId o1 = bookletId o2) : o1 = o2 := by
  have hd := congrArg String.data h
  simp only [bookletId, String.data_append] at hd
  exact string_eq_of_data (List.append_cancel_left hd)

theorem optVal_lt5 {c : ℕ} (h : c < 5) :
    ∀ ch ∈ (optVal c).data, ch.isDigit = false := by
  interval_cases c <;> decide

theorem optVal_ge5 {c : ℕ} (h : 5 ≤ c) : optVal c = natRepr c := by
  rw [optVal, List.get?_eq_none.mpr (by rw [show optionsList.length = 5 from rfl]; omega)]
  rfl

theorem optVal_lt5_ne_ge5 {c1 c2 : ℕ} (h1 : c1 < 5) (h2 : 5 ≤ c2) :
    optVal c1 ≠ optVal c2 := by
  intro he
  have hd := congrArg String.data he
  rw [optVal_ge5 h2] at hd
  cases hdata : (natRepr c2).data with
  | nil => exact natRepr_ne_nil c2 hdata
  | cons a t =>
    have hadig : a.isDigit = true := natRepr_digits c2 a (by rw [hdata]; simp)
    have hamem : a ∈ (optVal c1).data := by
      rw [hd, hdata]
      simp
    exact isDigit_ne hadig (optVal_lt5 h1 a hamem) rfl

theorem optVal_inj {c1 c2 : ℕ} (h : optVal c1 = optVal c2) : c1 = c2 := by
  by_cases h1 : c1 < 5 <;> by_cases h2 : c2 < 5
  · have hb : ∀ a, a < 5 → ∀ b, b < 5 → optVal a = optVal b → a = b := by decide
    exact hb c1 h1 c2 h2 h
  · exact absurd h (optVal_lt5_ne_ge5 h1 (by omega))
  · exact absurd h.symm (optVal_lt5_ne_ge5 h2 (by omega))
  · rw [optVal_ge5 (by omega), optVal_ge5 (by omega)] at h
    exact natRepr_inj h

theorem qnum_components_inj {T r1 i1 r2 i2 : ℕ} (h1 : i1 < T) (h2 : i2 < T)
    (h : r1 * T + (i1 + 1) = r2 * T + (i2 + 1)) : r1 = r2 ∧ i1 = i2 := by
  have h' : T * r1 + i1 = T * r2 + i2 := by
    have e1 : r1 * T = T * r1 := Nat.mul_comm r1 T
    have e2 : r2 * T = T * r2 := Nat.mul_comm r2 T
    omega
  have hi : i1 = i2 := by
    have e1 : (T * r1 + i1) % T = i1 % T := Nat.mul_add_mod T r1 i1
    have e2 : (T * r2 + i2) % T = i2 % T := Nat.mul_add_mod T r2 i2
    rw [h'] at e1
    rw [e2] at e1
    rw [Nat.mod_eq_of_lt h1, Nat.mod_eq_of_lt h2] at e1
    exact e1.symm
  refine ⟨?_, hi⟩
  subst hi
  have hr : T * r1 = T * r2 := by omega
  exact Nat.eq_of_mul_eq_mul_left (by omega) hr

/-! ### Uniqueness of mapped identities -/

theorem nodup_filterMap_on {α β : Type} {l : List α} {f : α → Option β} (hl : l.Nodup)
    (H : ∀ a ∈ l, ∀ b ∈ l, ∀ c, c ∈ f a → c ∈ f b → a = b) : (l.filterMap f).Nodup := by
  induction l with
  | nil => simp
  | cons a t ih =>
    rw [List.filterMap_cons]
    cases hfa : f a with
    | none =>
      exact ih (List.Nodup.of_cons hl)
        (fun x hx y hy c hc1 hc2 =>
          H x (List.mem_cons_of_mem a hx) y (List.mem_cons_of_mem a hy) c hc1 hc2)
    | some c =>
      refine List.Nodup.cons ?_ (ih (List.Nodup.of_cons hl)
        (fun x hx y hy c2 hc1 hc2 =>
          H x (List.mem_cons_of_mem a hx) y (List.mem_cons_of_mem a hy) c2 hc1 hc2))
      intro hc
      rw [List.mem_filterMap] at hc
      obtain ⟨b, hb, hfb⟩ := hc
      have hab : b = a := H b (List.mem_cons_of_mem a hb) a (List.mem_cons_self a t) c
        hfb (by rw [hfa]; rfl)
      rw [hab] at hb
      exact (List.nodup_cons.mp hl).1 hb

theorem pyEnum_nodup (l : List α) : (pyEnum l).Nodup :=
  (pyEnum_pairwise_ne l).imp (fun h he => h (congrArg Prod.fst he))

theorem sliceAt_length (l : List Bubble) :
    ∀ (splits : List ℕ) (start : ℕ), (sliceAt l splits start).length = splits.length + 1 := by
  intro splits
  induction splits with
  | nil => intro start; rfl
  | cons s rest ih =>
    intro start
    rw [sliceAt, List.length_cons, ih]
    rfl

theorem detectedQuestionCols_length (bubbles : List Bubble) :
    (detectedQuestionCols bubbles).length = numDetectedCols bubbles := by
  rw [detectedQuestionCols, numDetectedCols, sliceAt_length]

/-- The identity strings of the roll-zone marks. -/
theorem mapRoll_ids (conf : RollConf) (header : List Bubble) :
    (mapRoll conf header).map (fun m => m.id) =
      (pyEnum ((splitByGap 30 (fun b => b.x)
          (sortByX (header.filter (fun b => decide (b.x < 1100))))).take conf.digits)).flatMap
        (fun dcol =>
          ((pyEnum (sortByY dcol.2)).filter (fun rb => decide (rb.1 < conf.rows))).map
            (fun rb => rollId dcol.1 (labelAt conf rb.1))) := by
  rw [mapRoll, List.map_flatMap]
  congr 1
  funext dcol
  rw [List.map_map]
  rfl

theorem labelAt_inj_of (conf : RollConf) (hnd : conf.labels.Nodup)
    (hlen : conf.rows ≤ conf.labels.length) {r1 r2 : ℕ}
    (h1 : r1 < conf.rows) (h2 : r2 < conf.rows)
    (h : labelAt conf r1 = labelAt conf r2) : r1 = r2 := by
  have hr1 : r1 < conf.labels.length := by omega
  have hr2 : r2 < conf.labels.length := by omega
  rw [labelAt, labelAt, List.get?_eq_get hr1, List.get?_eq_get hr2] at h
  simp only [Option.getD_some] at h
  have := (List.Nodup.get_inj_iff hnd).mp h
  exact congrArg Fin.val this

theorem mapRoll_ids_nodup (conf : RollConf) (header : List Bubble)
    (hnd : conf.labels.Nodup) (hlen : conf.rows ≤ conf.labels.length) :
    ((mapRoll conf header).map (fun m => m.id)).Nodup := by
  rw [mapRoll_ids, List.nodup_flatMap]
  constructor
  · intro dcol _
    refine List.Nodup.map_on ?_ (List.Nodup.filter _ (pyEnum_nodup _))
    intro rb1 hrb1 rb2 hrb2 heq
    rw [List.mem_filter] at hrb1 hrb2
    have hlt1 : rb1.1 < conf.rows := by simpa using hrb1.2
    have hlt2 : rb2.1 < conf.rows := by simpa using hrb2.2
    have hridx := labelAt_inj_of conf hnd hlen hlt1 hlt2 (rollId_inj heq).2
    exact pyEnum_fst_eq hrb1.1 hrb2.1 hridx
  · refine (pyEnum_pairwise_ne _).imp ?_
    intro p q hne s hsp hsq
    rw [List.mem_map] at hsp hsq
    obtain ⟨rb1, _, he1⟩ := hsp
    obtain ⟨rb2, _, he2⟩ := hsq
    rw [← he1] at he2
    exact hne (rollId_inj he2.symm).1

theorem mapBooklet_ids (conf : BookletConf) (header : List Bubble) :
    (mapBooklet conf header).map (fun m => m.id) =
      (pyEnum (sortByX (header.filter (fun b => decide (b.x > 1100))))).filterMap
        (fun ib => (conf.options.get? ib.1).map (fun opt => bookletId opt)) := by
  rw [mapBooklet, List.map_filterMap]
  congr 1
  funext ib
  cases conf.options.get? ib.1 <;> rfl

theorem get?_idx_inj {l : List String} (hnd : l.Nodup) {i j : ℕ} {x : String}
    (hi : l.get? i = some x) (hj : l.get? j = some x) : i = j := by
  obtain ⟨hi1, hi2⟩ := List.get?_eq_some.mp hi
  obtain ⟨hj1, hj2⟩ := List.get?_eq_some.mp hj
  have := (List.Nodup.get_inj_iff hnd).mp (hi2.trans hj2.symm)
  exact congrArg Fin.val this

theorem mapBooklet_ids_nodup (conf : BookletConf) (header : List Bubble)
    (hnd : conf.options.Nodup) :
    ((mapBooklet conf header).map (fun m => m.id)).Nodup := by
  rw [mapBooklet_ids]
  refine nodup_filterMap_on (pyEnum_nodup _) ?_
  intro a ha b hb c hc1 hc2
  rw [Option.mem_def, Option.map_eq_some'] at hc1 hc2
  obtain ⟨o1, hg1, he1⟩ := hc1
  obtain ⟨o2, hg2, he2⟩ := hc2
  rw [← he1] at he2
  have ho : o2 = o1 := bookletId_inj he2
  rw [ho] at hg2
  exact pyEnum_fst_eq ha hb (get?_idx_inj hnd hg1 hg2)

theorem mapBlockCol_ids (T i : ℕ) (blk : FieldBlock) (col : List Bubble) :
    (mapBlockCol T i blk col).map (fun m => m.id) =
      (pyEnum (gridRowsOfCol col)).flatMap (fun rrow =>
        ((pyEnum (sortByX rrow.2)).filter (fun cb => decide (cb.1 < blk.optionsCount))).map
          (fun cb => questionId (rrow.1 * T + (i + 1)) (optVal cb.1))) := by
  rw [mapBlockCol, List.map_flatMap]
  congr 1
  funext rrow
  rw [List.map_map]
  rfl

theorem mapBlockCol_ids_nodup (T i : ℕ) (blk : FieldBlock) (col : List Bubble)
    (hT : 0 < T) :
    ((mapBlockCol T i blk col).map (fun m => m.id)).Nodup := by
  rw [mapBlockCol_ids, List.nodup_flatMap]
  constructor
  · intro rrow _
    refine List.Nodup.map_on ?_ (List.Nodup.filter _ (pyEnum_nodup _))
    intro cb1 hcb1 cb2 hcb2 heq
    rw [List.mem_filter] at hcb1 hcb2
    exact pyEnum_fst_eq hcb1.1 hcb2.1 (optVal_inj (questionId_inj heq).2)
  · refine (pyEnum_pairwise_ne _).imp ?_
    intro p q hne s hsp hsq
    rw [List.mem_map] at hsp hsq
    obtain ⟨cb1, _, he1⟩ := hsp
    obtain ⟨cb2, _, he2⟩ := hsq
    rw [← he1] at he2
    have hq := (questionId_inj he2.symm).1
    have : p.1 * T = q.1 * T := by omega
    exact hne (Nat.eq_of_mul_eq_mul_right hT this)

theorem mem_mapBlockCol_ids {T i : ℕ} {blk : FieldBlock} {col : List Bubble} {s : String}
    (h : s ∈ (mapBlockCol T i blk col).map (fun m => m.id)) :
    ∃ r o, s = questionId (r * T + (i + 1)) o := by
  rw [mapBlockCol_ids] at h
  rw [List.mem_flatMap] at h
  obtain ⟨rrow, _, hm⟩ := h
  rw [List.mem_map] at hm
  obtain ⟨cb, _, he⟩ := hm
  exact ⟨rrow.1, optVal cb.1, he.symm⟩

theorem mapQuestions_ids_nodup (tpl : Template) (bubbles : List Bubble) :
    ((mapQuestions tpl bubbles).map (fun m => m.id)).Nodup := by
  rw [mapQuestions]
  by_cases hfew : (questionPool bubbles).length < 20
  · rw [if_pos hfew]
    simp
  · rw [if_neg hfew]
    rw [List.map_flatMap, List.nodup_flatMap]
    have hT : 0 < numDetectedCols bubbles := by
      rw [numDetectedCols]
      omega
    constructor
    · intro ib _
      cases hcol : (detectedQuestionCols bubbles).get? ib.1 with
      | none => simp only [hcol]; simp
      | some col =>
        simp only [hcol]
        exact mapBlockCol_ids_nodup _ _ _ _ hT
    · refine (pyEnum_pairwise_ne _).imp ?_
      intro p q hne s hsp hsq
      cases hcolp : (detectedQuestionCols bubbles).get? p.1 with
      | none => simp only [hcolp] at hsp; simp at hsp
      | some colp =>
        cases hcolq : (detectedQuestionCols bubbles).get? q.1 with
        | none => simp only [hcolq] at hsq; simp at hsq
        | some colq =>
          simp only [hcolp] at hsp
          simp only [hcolq] at hsq
          obtain ⟨r1, o1, he1⟩ := mem_mapBlockCol_ids hsp
          obtain ⟨r2, o2, he2⟩ := mem_mapBlockCol_ids hsq
          rw [he1] at he2
          have hqn := (questionId_inj he2).1
          have hp1 : p.1 < numDetectedCols bubbles := by
            have := (List.get?_eq_some.mp hcolp).1
            rwa [detectedQuestionCols_length] at this
          have hq1 : q.1 < numDetectedCols bubbles := by
            have := (List.get?_eq_some.mp hcolq).1
            rwa [detectedQuestionCols_length] at this
          exact hne (qnum_components_inj hp1 hq1 hqn).2

theorem mem_mapRoll_ids_head {conf : RollConf} {header : List Bubble} {s : String}
    (h : s ∈ (mapRoll conf header).map (fun m => m.id)) : s.data.head? = some 'r' := by
  rw [mapRoll_ids, List.mem_flatMap] at h
  obtain ⟨dcol, _, hm⟩ := h
  rw [List.mem_map] at hm
  obtain ⟨rb, _, he⟩ := hm
  rw [← he]
  rfl

theorem mem_mapBooklet_ids_head {conf : BookletConf} {header : List Bubble} {s : String}
    (h : s ∈ (mapBooklet conf header).map (fun m => m.id)) : s.data.head? = some 't' := by
  rw [mapBooklet_ids, List.mem_filterMap] at h
  obtain ⟨ib, _, hm⟩ := h
  rw [Option.map_eq_some'] at hm
  obtain ⟨o, _, he⟩ := hm
  rw [← he]
  rfl

theorem mem_mapQuestions_ids_head {tpl : Template} {bubbles : List Bubble} {s : String}
    (h : s ∈ (mapQuestions tpl bubbles).map (fun m => m.id)) : s.data.head? = some 'q' := by
  rw [mapQuestions] at h
  by_cases hfew : (questionPool bubbles).length < 20
  · rw [if_pos hfew] at h
    simp at h
  · rw [if_neg hfew] at h
    rw [List.map_flatMap, List.mem_flatMap] at h
    obtain ⟨ib, _, hm⟩ := h
    cases hcol : (detectedQuestionCols bubbles).get? ib.1 with
    | none =>
      simp only [hcol] at hm
      simp at hm
    | some col =>
      simp only [hcol] at hm
      obtain ⟨r, o, he⟩ := mem_mapBlockCol_ids hm
      rw [he]
      rfl

/-- C3 (amended): within one run, no two mapped marks share an identity
string, provided the Layout Descriptor's identification row labels are
pairwise distinct AND cover all declared rows (at least `rows` labels), and
its option-code values are pairwise distinct. (The label-count condition is
forced by the counterexample: with fewer labels than rows the `str(row)`
fallback can repeat a label.) -/
theorem mapped_marks_ids_nodup (tpl : Template) (bubbles : List Bubble)
    (hroll : ∀ conf, tpl.rollNumber = some conf →
      conf.labels.Nodup ∧ conf.rows ≤ conf.labels.length)
    (hbook : ∀ conf, tpl.testBookletCode = some conf → conf.options.Nodup) :
    ((map_bubbles_to_structure tpl bubbles).map (fun m => m.id)).Nodup := by
  rw [map_bubbles_to_structure, List.map_append, List.map_append, List.nodup_append]
  have hrollpart : ∀ s : String, s ∈ (match tpl.rollNumber with
      | none => ([] : List MappedMark)
      | some conf => mapRoll conf (headerPool bubbles)).map (fun m : MappedMark => m.id) →
      s.data.head? = some 'r' := by
    intro s hs
    cases hconf : tpl.rollNumber with
    | none =>
      rw [hconf] at hs
      simp at hs
    | some conf =>
      rw [hconf] at hs
      exact mem_mapRoll_ids_head hs
  have hbookpart : ∀ s : String, s ∈ (match tpl.testBookletCode with
      | none => ([] : List MappedMark)
      | some conf => mapBooklet conf (headerPool bubbles)).map (fun m : MappedMark => m.id) →
      s.data.head? = some 't' := by
    intro s hs
    cases hconf : tpl.testBookletCode with
    | none =>
      rw [hconf] at hs
      simp at hs
    | some conf =>
      rw [hconf] at hs
      exact mem_mapBooklet_ids_head hs
  refine ⟨?_, mapQuestions_ids_nodup tpl bubbles, ?_⟩
  · rw [List.nodup_append]
    refine ⟨?_, ?_, ?_⟩
    · cases hconf : tpl.rollNumber with
      | none => simp
      | some conf =>
        obtain ⟨h1, h2⟩ := hroll conf hconf
        exact mapRoll_ids_nodup conf _ h1 h2
    · cases hconf : tpl.testBookletCode with
      | none => simp
      | some conf => exact mapBooklet_ids_nodup conf _ (hbook conf hconf)
    · intro s hs1 hs2
      have h1 := hrollpart s hs1
      have h2 := hbookpart s hs2
      rw [h1] at h2
      exact absurd h2 (by decide)
  · intro s hs1 hs2
    have h2 := mem_mapQuestions_ids_head hs2
    rcases List.mem_append.mp hs1 with hr | hb
    · have h1 := hrollpart s hr
      rw [h1] at h2
      exact absurd h2 (by decide)
    · have h1 := hbookpart s hb
      rw [h1] at h2
      exact absurd h2 (by decide)

/-- Counterexample template for C3 as stated: the single roll label "3" is
trivially pairwise distinct, but the declared row count 4 exceeds the label
count, so rows beyond the label list fall back to `str(row_index)`. -/
def cexTemplate : Template := ⟨some ⟨4, 1, ["3"]⟩, none, []⟩

/-- Four marks in one roll column (same x, increasing y), all in the header
zone. -/
def cexBubbles : List Bubble := [⟨100, 100⟩, ⟨100, 150⟩, ⟨100, 200⟩, ⟨100, 250⟩]

/-- Counterexample to C3 as stated: with pairwise-distinct identification
labels (and no option-code block at all), two mapped marks still share the
identity `roll_col0_val3` — row 0 takes the label "3" while row 3 takes the
fallback `str(3)` — so distinctness of the declared labels alone does not
make identities unique. -/
theorem duplicate_identity_with_short_labels :
    (["3"] : List String).Nodup ∧
    cexTemplate.rollNumber = some ⟨4, 1, ["3"]⟩ ∧
    cexTemplate.testBookletCode = none ∧
    ¬ ((map_bubbles_to_structure cexTemplate cexBubbles).map (fun m => m.id)).Nodup := by
  refine ⟨by decide, rfl, rfl, by decide⟩

/-- Witness template for the amended C3: two roll columns with two distinct
labels covering the two rows, and a two-option booklet block. -/
def okTemplate : Template := ⟨some ⟨2, 2, ["0", "1"]⟩, some ⟨["A", "B"]⟩, []⟩

/-- Two roll columns of two marks each plus two booklet marks. -/
def okBubbles : List Bubble :=
  [⟨100, 100⟩, ⟨100, 140⟩, ⟨200, 100⟩, ⟨200, 140⟩, ⟨1200, 100⟩, ⟨1240, 100⟩]

/-- Witness for the amended C3 on a concrete run with six mapped marks. -/
theorem mapped_marks_ids_nodup_witness :
    ((map_bubbles_to_structure okTemplate okBubbles).map (fun m => m.id)).Nodup :=
  mapped_marks_ids_nodup okTemplate okBubbles
    (fun conf h => by
      injection h with h2
      rw [← h2]
      exact ⟨by decide, by decide⟩)
    (fun conf h => by
      injection h with h2
      rw [← h2]
      decide)

end Omr
